import Mathlib

/-!
Verification development for the lip-sync core of a VRM avatar SDK.

The embedding mirrors three source files:
- `AudioAnalyzer.ts` : spectral volume estimation and vowel-weight computation;
- `MorphMapper.ts`   : resolution of vowel weights onto avatar blend channels
  (direct VRC channels, expression presets, heuristic fallback) and `reset`;
- `LipSyncEngine.ts` : the per-tick orchestrator (`processLipSync`,
  `smoothToSilence`, `stop`, `testVowel`, `runTestSequence` steps,
  `updateConfig`, `animate` throttling).

Numbers are exact rationals (the source uses JS doubles); mutable mesh
morph-target influence arrays become lists of rationals updated by explicit
write lists, and the analyzer's WebAudio nodes become presence flags, with the
per-tick frequency-data array supplied as an explicit input.
-/

namespace LipSync

/-! ### Vowel-weight vectors -/

/-- Mapping from the five fixed vowel categories to an intensity, mirroring
the `Record<string, number>` objects with keys `aa`, `e`, `ih`, `oh`, `ou`. -/
structure VowelWeights where
  aa : ℚ
  e : ℚ
  ih : ℚ
  oh : ℚ
  ou : ℚ
deriving DecidableEq

/-- The all-zero vowel vector (initial `smoothedWeights` and the value after
`stop`). -/
def zeroWeights : VowelWeights := ⟨0, 0, 0, 0, 0⟩

/-- The iteration order of `Object.entries` over a vowel-weight record:
insertion order of the five keys. -/
def VowelWeights.entries (w : VowelWeights) : List (String × ℚ) :=
  [("aa", w.aa), ("e", w.e), ("ih", w.ih), ("oh", w.oh), ("ou", w.ou)]

/-- The five weights as a list, in key order. -/
def VowelWeights.toList (w : VowelWeights) : List ℚ :=
  [w.aa, w.e, w.ih, w.oh, w.ou]

/-- Component access by vowel index (0 = aa, 1 = e, 2 = ih, 3 = oh, 4 = ou). -/
def VowelWeights.comp (w : VowelWeights) (i : Fin 5) : ℚ :=
  w.toList.get (Fin.mk i.1 (by simp [VowelWeights.toList]))

/-- Sum of the five vowel weights. -/
def sumWeights (w : VowelWeights) : ℚ := w.aa + w.e + w.ih + w.oh + w.ou

/-- One tick's analysis output (`AudioAnalysisResult`), as consumed by the
engine: volume, dominant frequency and the vowel-weight vector. -/
structure AnalysisFrame where
  volume : ℚ
  dominantFrequency : ℚ
  vowelWeights : VowelWeights
deriving DecidableEq

/-! ### AudioAnalyzer: configuration and volume computation -/

/-- `AudioAnalyzerConfig` after the constructor fills defaults. -/
structure AudioAnalyzerConfig where
  fftSize : ℕ
  smoothingTimeConstant : ℚ
  minDecibels : ℚ
  maxDecibels : ℚ
deriving DecidableEq

/-- The config built by `new AudioAnalyzer({fftSize: 256, smoothingTimeConstant})`:
constructor defaults `minDecibels = -90`, `maxDecibels = -10`. -/
def defaultAnalyzerConfig (smoothing : ℚ) : AudioAnalyzerConfig :=
  { fftSize := 256, smoothingTimeConstant := smoothing
    minDecibels := -90, maxDecibels := -10 }

/-- Normalization of one frequency-bin magnitude to the configured
`[minDecibels, maxDecibels]` range. -/
def normalizedBin (cfg : AudioAnalyzerConfig) (d : ℚ) : ℚ :=
  (d - cfg.minDecibels) / (cfg.maxDecibels - cfg.minDecibels)

/-- The volume loop of `analyze()`: accumulate the squared normalized value and
the count over the bins strictly above the noise floor `minDecibels`. -/
def volumeStats (cfg : AudioAnalyzerConfig) (data : List ℚ) : ℚ × ℕ :=
  data.foldl
    (fun sc d =>
      if cfg.minDecibels < d then
        (sc.1 + normalizedBin cfg d * normalizedBin cfg d, sc.2 + 1)
      else sc)
    (0, 0)

/-- The square of the volume computed by `analyze()`:
`count > 0 ? sum / count : 0` (the source then takes `Math.sqrt`). -/
def analyzeVolumeSq (cfg : AudioAnalyzerConfig) (data : List ℚ) : ℚ :=
  let sc := volumeStats cfg data
  if 0 < sc.2 then sc.1 / (sc.2 : ℚ) else 0

/-- The volume of `analyze()` (`Math.sqrt` of the mean of squares); the square
root leaves the rationals, so this one definition lives in `ℝ`. -/
noncomputable def analyzeVolume (cfg : AudioAnalyzerConfig) (data : List ℚ) : ℝ :=
  Real.sqrt ((analyzeVolumeSq cfg data : ℚ) : ℝ)

/-- Volume squared as the spec words it: the bins strictly exceeding the noise
floor are kept, each one normalized; sub-floor bins are excluded from both the
numerator and the denominator of the mean of squares. -/
def specVolumeSq (cfg : AudioAnalyzerConfig) (data : List ℚ) : ℚ :=
  let bins := (data.filter (fun d => decide (cfg.minDecibels < d))).map (normalizedBin cfg)
  if bins.length = 0 then 0
  else (bins.map (fun x => x * x)).sum / (bins.length : ℚ)

/-- Spec-worded RMS volume: square root of `specVolumeSq`. -/
noncomputable def specVolume (cfg : AudioAnalyzerConfig) (data : List ℚ) : ℝ :=
  Real.sqrt ((specVolumeSq cfg data : ℚ) : ℝ)

/-! ### AudioAnalyzer: vowel weights from the dominant frequency -/

/-- Proximity score of `calculateVowelWeights`:
`1 / (1 + (|freq − f1| + |freq − f2|) / 1000)`. -/
def proximity (freq f1 f2 : ℚ) : ℚ :=
  1 / (1 + (|freq - f1| + |freq - f2|) / 1000)

/-- The raw (pre-normalization) proximity scores against the five fixed
formant pairs of `vowelFormants`. -/
def rawProximities (freq : ℚ) : VowelWeights :=
  { aa := proximity freq 700 1220
    e := proximity freq 530 1840
    ih := proximity freq 390 1990
    oh := proximity freq 570 840
    ou := proximity freq 370 950 }

/-- `calculateVowelWeights`: proximity scores, then division by their total
when the total is positive. -/
def calculateVowelWeights (freq : ℚ) : VowelWeights :=
  let w := rawProximities freq
  let total := sumWeights w
  if 0 < total then
    { aa := w.aa / total, e := w.e / total, ih := w.ih / total
      oh := w.oh / total, ou := w.ou / total }
  else w

/-! ### AudioAnalyzer: runtime state -/

/-- Runtime state of an `AudioAnalyzer` instance: which WebAudio objects
(`audioContext`, `analyser`, `source`, `dataArray`) are currently non-null. -/
structure AudioAnalyzerState where
  config : AudioAnalyzerConfig
  hasContext : Bool
  hasAnalyser : Bool
  hasSource : Bool
  hasDataArray : Bool
deriving DecidableEq

/-- `dispose()`: disconnect and null out every acquired audio-graph object. -/
def AudioAnalyzerState.dispose (a : AudioAnalyzerState) : AudioAnalyzerState :=
  { a with hasContext := false, hasAnalyser := false
           hasSource := false, hasDataArray := false }

/-- A freshly constructed `AudioAnalyzer` (no initialization has run yet:
every internal object is null). -/
def freshAnalyzer (cfg : AudioAnalyzerConfig) : AudioAnalyzerState :=
  { config := cfg, hasContext := false, hasAnalyser := false
    hasSource := false, hasDataArray := false }

/-- The guard at the top of `analyze()`: it bails out with `null` unless both
`analyser` and `dataArray` exist. -/
def analyzerReady (a : AudioAnalyzerState) : Bool :=
  a.hasAnalyser && a.hasDataArray

/-! ### MorphMapper: avatar model -/

/-- A skinned mesh exposing morph targets: `morphTargetDictionary` (name to
index) and `morphTargetInfluences` (the mutable weight array). -/
structure Mesh where
  dict : List (String × ℕ)
  influences : List ℚ
deriving DecidableEq

/-- A VRM `expressionManager` modeled by its registered expressions and their
current weights; `setValue` on an unregistered name is ignored. -/
abbrev ExprMgr := List (String × ℚ)

/-- A bound VRM avatar: its skinned meshes (in traversal order), the optional
expression manager, and counters for the `update(0.016)` recompute triggers. -/
structure Avatar where
  meshes : List Mesh
  exprMgr : Option ExprMgr
  updateCount : ℕ
  exprUpdateCount : ℕ
deriving DecidableEq

/-- Well-formedness of a loaded avatar: every morph-dictionary index points
inside the mesh's influence array. -/
def Avatar.WF (av : Avatar) : Prop :=
  ∀ m ∈ av.meshes, ∀ p ∈ m.dict, p.2 < m.influences.length

instance (av : Avatar) : Decidable av.WF := by
  unfold Avatar.WF; infer_instance

/-- Write one influence slot of a mesh
(`mesh.morphTargetInfluences[index] = v`). -/
def Mesh.setInfluence (m : Mesh) (idx : ℕ) (v : ℚ) : Mesh :=
  { m with influences := m.influences.set idx v }

/-- One channel write: mesh index, morph-target index, value. -/
abbrev Write := ℕ × ℕ × ℚ

/-- Perform one write against the mesh list. -/
def writeSink (ms : List Mesh) (mi idx : ℕ) (v : ℚ) : List Mesh :=
  match ms.get? mi with
  | some m => ms.set mi (m.setInfluence idx v)
  | none => ms

/-- Perform a list of writes in order. -/
def applyWrites (ms : List Mesh) (ws : List Write) : List Mesh :=
  ws.foldl (fun acc w => writeSink acc w.1 w.2.1 w.2.2) ms

/-- Read one influence slot (`none` when the mesh or the index is absent). -/
def sinkVal (ms : List Mesh) (mi idx : ℕ) : Option ℚ :=
  (ms.get? mi).bind (fun m => m.influences.get? idx)

/-- The effect of a write list on one fixed sink `(mi, idx)`: last write wins,
and a write lands only when the sink exists. -/
def applySinkWrites (mi idx : ℕ) (v : Option ℚ) (ws : List Write) : Option ℚ :=
  ws.foldl
    (fun acc w =>
      if w.1 = mi ∧ w.2.1 = idx ∧ acc.isSome = true then some w.2.2 else acc)
    v

/-! ### MorphMapper: morph-target map -/

/-- `morphTargetMap`: a JS `Map` from channel name to its `(mesh, index)`
sinks, in insertion order. -/
abbrev MorphMap := List (String × List (ℕ × ℕ))

/-- Append one target to a name's bucket, creating the bucket at the end of
the map when the name is new (JS `Map` insertion-order semantics). -/
def insertTarget (m : MorphMap) (name : String) (t : ℕ × ℕ) : MorphMap :=
  match m with
  | [] => [(name, [t])]
  | (k, ts) :: rest =>
    if k = name then (k, ts ++ [t]) :: rest
    else (k, ts) :: insertTarget rest name t

/-- Build the morph-target map from the meshes' dictionaries, in traversal
order (`buildMorphTargetMap`). -/
def buildFromDicts (dicts : List (List (String × ℕ))) : MorphMap :=
  (dicts.enum).foldl
    (fun acc md => md.2.foldl (fun acc2 p => insertTarget acc2 p.1 (md.1, p.2)) acc)
    []

/-- `buildMorphTargetMap` over a mesh list: only the dictionaries matter. -/
def buildMorphTargetMap (meshes : List Mesh) : MorphMap :=
  buildFromDicts (meshes.map Mesh.dict)

/-- `map.get(name)` (with `map.has(name)` as `isSome`). -/
def mapGet (m : MorphMap) (name : String) : Option (List (ℕ × ℕ)) :=
  (m.find? (fun e => e.1 == name)).map (fun e => e.2)

/-- The sinks a channel name maps to (empty when the name is absent). -/
def bucket (m : MorphMap) (name : String) : List (ℕ × ℕ) :=
  (mapGet m name).getD []

/-! ### MorphMapper: strategies -/

/-- The fixed VRC vowel-channel names. -/
def vrcVowelMorphs : List String :=
  ["vrc.v_aa", "vrc.v_e", "vrc.v_ih", "vrc.v_oh", "vrc.v_ou"]

/-- The `vrcMapping` record of `applyVRCMorphs`. -/
def vrcMapping (vowel : String) : Option String :=
  if vowel == "aa" then some "vrc.v_aa"
  else if vowel == "e" then some "vrc.v_e"
  else if vowel == "ih" then some "vrc.v_ih"
  else if vowel == "oh" then some "vrc.v_oh"
  else if vowel == "ou" then some "vrc.v_ou"
  else none

/-- Guard of strategy 1: the candidate mesh itself exposes at least one VRC
vowel channel (protects against unrelated body morphs sharing a name). -/
def hasVrcMorphs (m : Mesh) : Bool :=
  vrcVowelMorphs.any (fun n => m.dict.any (fun p => p.1 == n))

/-- The ordered channel writes performed by `applyVRCMorphs` (strategy 1);
its return flag `applied` is true exactly when this list is nonempty. -/
def vrcWriteList (meshes : List Mesh) (vw : VowelWeights) : List Write :=
  (vw.entries).flatMap (fun ev =>
    match vrcMapping ev.1 with
    | none => []
    | some morphName =>
      match mapGet (buildMorphTargetMap meshes) morphName with
      | none => []
      | some targets =>
        targets.flatMap (fun t =>
          match meshes.get? t.1 with
          | some m => if hasVrcMorphs m then [(t.1, t.2, ev.2)] else []
          | none => []))

/-- The fixed keyword list `alternativeMorphPatterns`. -/
def alternativeMorphPatterns : List String :=
  ["mouth", "lip", "jaw", "teeth", "tongue",
   "aa", "ah", "ch", "dd", "e", "ee", "ff", "ih", "kk",
   "nn", "oh", "ou", "pp", "rr", "sil", "ss", "th"]

/-- Substring search over character lists (JS `String.prototype.includes`). -/
def charsInclude (p : List Char) : List Char → Bool
  | [] => p.isEmpty
  | c :: rest => List.isPrefixOf p (c :: rest) || charsInclude p rest

/-- The heuristic test `morphName.toLowerCase().includes(pattern)`
(lower-casing modeled characterwise). -/
def nameMatches (name pat : String) : Bool :=
  charsInclude pat.toList (name.toList.map Char.toLower)

/-- `Math.max(...Object.values(vowelWeights))`. -/
def mouthValue (vw : VowelWeights) : ℚ :=
  max vw.aa (max vw.e (max vw.ih (max vw.oh vw.ou)))

/-- The ordered channel writes of `applyAlternativeMorphs` (strategy 3): for
each keyword pattern, every map entry whose lower-cased name contains the
pattern gets `max(vowelWeights) * 0.5` written to all its sinks. -/
def altWriteList (meshes : List Mesh) (vw : VowelWeights) : List Write :=
  alternativeMorphPatterns.flatMap (fun pat =>
    (buildMorphTargetMap meshes).flatMap (fun e =>
      if nameMatches e.1 pat then
        e.2.map (fun t => (t.1, t.2, mouthValue vw * (1 / 2)))
      else []))

/-- The `expressionMapping` calls of `applyExpressions` (strategy 2):
vowels map to the canonical expression names `aa`, `e`, `i`, `o`, `u`. -/
def exprCallList (vw : VowelWeights) : List (String × ℚ) :=
  [("aa", vw.aa), ("e", vw.e), ("i", vw.ih), ("o", vw.oh), ("u", vw.ou)]

/-- `expressionManager.setValue(name, v)`: update the expression if
registered, silently ignore the call otherwise. -/
def exprSetValue (mgr : ExprMgr) (name : String) (v : ℚ) : ExprMgr :=
  mgr.map (fun p => if p.1 == name then (p.1, v) else p)

/-- Perform a list of `setValue` calls in order. -/
def applyExprCalls (mgr : ExprMgr) (calls : List (String × ℚ)) : ExprMgr :=
  calls.foldl (fun acc c => exprSetValue acc c.1 c.2) mgr

/-! ### MorphMapper: apply and reset -/

/-- A `customMappings` entry (carried by the configuration; `applyVowelWeights`
never reads it). -/
structure MorphMapping where
  vowel : String
  morphNames : List String
  weight : ℚ
deriving DecidableEq

/-- `MorphMapperConfig` after constructor defaults. -/
structure MorphMapperConfig where
  customMappings : List MorphMapping
  useVRCMorphs : Bool
  useExpressions : Bool
deriving DecidableEq

/-- Instrumentation of one `applyVowelWeights` call: the channel writes of
strategy 1, the `setValue` calls of strategy 2, the channel writes of
strategy 3. -/
structure ApplyTrace where
  vrcWrites : List Write
  exprCalls : List (String × ℚ)
  altWrites : List Write
deriving DecidableEq

/-- `applyVowelWeights`: try the VRC strategy, then the expression strategy,
then the heuristic fallback, short-circuiting after the first success, and
trigger `vrm.update(0.016)` after whichever strategy ran. Returns the updated
avatar together with the per-strategy trace. -/
def applyVowelWeights (cfg : MorphMapperConfig) (vrm : Option Avatar)
    (vw : VowelWeights) : Option Avatar × ApplyTrace :=
  match vrm with
  | none => (none, { vrcWrites := [], exprCalls := [], altWrites := [] })
  | some av =>
    let vrcWs := if cfg.useVRCMorphs then vrcWriteList av.meshes vw else []
    if vrcWs ≠ [] then
      (some { av with meshes := applyWrites av.meshes vrcWs
                      updateCount := av.updateCount + 1 },
       { vrcWrites := vrcWs, exprCalls := [], altWrites := [] })
    else
      match cfg.useExpressions, av.exprMgr with
      | true, some mgr =>
        let calls := exprCallList vw
        (some { av with exprMgr := some (applyExprCalls mgr calls)
                        exprUpdateCount := av.exprUpdateCount + 1
                        updateCount := av.updateCount + 1 },
         { vrcWrites := vrcWs, exprCalls := calls, altWrites := [] })
      | _, _ =>
        let altWs := altWriteList av.meshes vw
        (some { av with meshes := applyWrites av.meshes altWs
                        updateCount := av.updateCount + 1 },
         { vrcWrites := vrcWs, exprCalls := [], altWrites := altWs })

/-- The writes of `reset()`: zero for every sink of every present VRC vowel
channel. -/
def resetWriteList (meshes : List Mesh) : List Write :=
  vrcVowelMorphs.flatMap (fun n =>
    (bucket (buildMorphTargetMap meshes) n).map (fun t => (t.1, t.2, (0 : ℚ))))

/-- The five canonical expression names zeroed by `reset()`. -/
def canonicalZeroCalls : List (String × ℚ) :=
  [("aa", 0), ("e", 0), ("i", 0), ("o", 0), ("u", 0)]

/-- Pointwise form of the expression zeroing of `reset()`. -/
def zeroCanonical (p : String × ℚ) : String × ℚ :=
  if p.1 == "aa" ∨ p.1 == "e" ∨ p.1 == "i" ∨ p.1 == "o" ∨ p.1 == "u"
  then (p.1, 0) else p

/-- `reset()` on a bound avatar: zero the VRC vowel sinks, zero the canonical
expressions when the expression manager exists (with its `update()`), then
`vrm.update(0.016)`. -/
def resetAvatar (av : Avatar) : Avatar :=
  let av1 := { av with meshes := applyWrites av.meshes (resetWriteList av.meshes) }
  let av2 :=
    match av1.exprMgr with
    | some mgr =>
      { av1 with exprMgr := some (applyExprCalls mgr canonicalZeroCalls)
                 exprUpdateCount := av1.exprUpdateCount + 1 }
    | none => av1
  { av2 with updateCount := av2.updateCount + 1 }

/-- `MorphMapper.reset()`: no-op when no VRM is bound. -/
def MorphMapper.reset (vrm : Option Avatar) : Option Avatar :=
  match vrm with
  | none => none
  | some av => some (resetAvatar av)

/-! ### LipSyncEngine -/

/-- `LipSyncConfig` after constructor defaults. -/
structure LipSyncConfig where
  sensitivity : ℚ
  smoothing : ℚ
  minVolume : ℚ
  updateInterval : ℚ
  customMorphMappings : List MorphMapping
deriving DecidableEq

/-- A `Partial<LipSyncConfig>` argument to `updateConfig`. -/
structure PartialLipSyncConfig where
  sensitivity : Option ℚ
  smoothing : Option ℚ
  minVolume : Option ℚ
  updateInterval : Option ℚ
  customMorphMappings : Option (List MorphMapping)
deriving DecidableEq

/-- The state of a `LipSyncEngine` instance. The engine and its `MorphMapper`
share the bound VRM; `animationFrame` holds the pending
`requestAnimationFrame` handle (0 = none). -/
structure EngineState where
  vrm : Option Avatar
  analyzer : AudioAnalyzerState
  mapperCfg : MorphMapperConfig
  config : LipSyncConfig
  animationFrame : ℕ
  isRunning : Bool
  smoothedWeights : VowelWeights
  lastUpdateTime : ℚ
deriving DecidableEq

/-- `lerp(start, end, factor) = start + (end − start) * factor`. -/
def lerp (a b t : ℚ) : ℚ := a + (b - a) * t

/-- The non-silent smoothing update of `processLipSync`: scale volume by
sensitivity (clamped to 1) and blend each target `raw * scaledVolume` into the
smoothed value with factor `1 − smoothing`. -/
def stepWeights (cfg : LipSyncConfig) (fr : AnalysisFrame)
    (w : VowelWeights) : VowelWeights :=
  let scaledVolume := min 1 (fr.volume * cfg.sensitivity)
  { aa := lerp w.aa (fr.vowelWeights.aa * scaledVolume) (1 - cfg.smoothing)
    e := lerp w.e (fr.vowelWeights.e * scaledVolume) (1 - cfg.smoothing)
    ih := lerp w.ih (fr.vowelWeights.ih * scaledVolume) (1 - cfg.smoothing)
    oh := lerp w.oh (fr.vowelWeights.oh * scaledVolume) (1 - cfg.smoothing)
    ou := lerp w.ou (fr.vowelWeights.ou * scaledVolume) (1 - cfg.smoothing) }

/-- The decay update of `smoothToSilence`: blend every weight toward 0 with
factor `1 − smoothing`. -/
def decayWeights (cfg : LipSyncConfig) (w : VowelWeights) : VowelWeights :=
  { aa := lerp w.aa 0 (1 - cfg.smoothing)
    e := lerp w.e 0 (1 - cfg.smoothing)
    ih := lerp w.ih 0 (1 - cfg.smoothing)
    oh := lerp w.oh 0 (1 - cfg.smoothing)
    ou := lerp w.ou 0 (1 - cfg.smoothing) }

/-- `smoothToSilence()`: decay the smoothed weights and apply them through the
morph mapper. -/
def smoothToSilence (s : EngineState) : EngineState :=
  let sw := decayWeights s.config s.smoothedWeights
  { s with smoothedWeights := sw
           vrm := (applyVowelWeights s.mapperCfg s.vrm sw).1 }

/-- `processLipSync(analysis)`: silence gate on `volume * 100 < minVolume`,
otherwise the smoothing update followed by the morph-mapper apply. -/
def processLipSync (s : EngineState) (fr : AnalysisFrame) : EngineState :=
  if fr.volume * 100 < s.config.minVolume then smoothToSilence s
  else
    let sw := stepWeights s.config fr s.smoothedWeights
    { s with smoothedWeights := sw
             vrm := (applyVowelWeights s.mapperCfg s.vrm sw).1 }

/-- `stop()`: clear the running flag, cancel a pending animation frame, reset
the morph mapper, zero the smoothed weights, dispose the analyzer. -/
def stop (s : EngineState) : EngineState :=
  let s1 := { s with isRunning := false }
  let s2 := if s1.animationFrame ≠ 0 then { s1 with animationFrame := 0 } else s1
  let s3 := { s2 with vrm := MorphMapper.reset s2.vrm }
  let s4 := { s3 with smoothedWeights := zeroWeights }
  { s4 with analyzer := s4.analyzer.dispose }

/-- The one-hot weight record built by `testVowel` (all-zero when the vowel
name is not one of the five keys). -/
def oneHot (vowel : String) (weight : ℚ) : VowelWeights :=
  { aa := if vowel == "aa" then weight else 0
    e := if vowel == "e" then weight else 0
    ih := if vowel == "ih" then weight else 0
    oh := if vowel == "oh" then weight else 0
    ou := if vowel == "ou" then weight else 0 }

/-- `testVowel(vowel, weight)`: no-op without a bound VRM, otherwise apply the
one-hot vector through the morph mapper. It reads no other engine state. -/
def testVowel (s : EngineState) (vowel : String) (weight : ℚ) : EngineState :=
  match s.vrm with
  | none => s
  | some _ =>
    { s with vrm := (applyVowelWeights s.mapperCfg s.vrm (oneHot vowel weight)).1 }

/-- The ramp weight of step `i` (0..20) inside `runTestSequence`:
`i <= 10 ? i/10 : (20 − i)/10`. -/
def testSequenceStepWeight (i : ℕ) : ℚ :=
  if i ≤ 10 then (i : ℚ) / 10 else ((20 : ℚ) - (i : ℚ)) / 10

/-- One loop step of `runTestSequence` (the body between two awaits): it calls
`testVowel` unconditionally — the loop contains no cancellation check. -/
def testSequenceStep (s : EngineState) (vowel : String) (i : ℕ) : EngineState :=
  testVowel s vowel (testSequenceStepWeight i)

/-- `Object.assign(this.config, config)` for the recognized fields. -/
def mergeConfig (cfg : LipSyncConfig) (p : PartialLipSyncConfig) : LipSyncConfig :=
  { sensitivity := p.sensitivity.getD cfg.sensitivity
    smoothing := p.smoothing.getD cfg.smoothing
    minVolume := p.minVolume.getD cfg.minVolume
    updateInterval := p.updateInterval.getD cfg.updateInterval
    customMorphMappings := p.customMorphMappings.getD cfg.customMorphMappings }

/-- `updateConfig(partial)`: merge the fields, and when a `smoothing` field is
present replace the analyzer with a brand-new, uninitialized instance. -/
def updateConfig (s : EngineState) (p : PartialLipSyncConfig) : EngineState :=
  let s1 := { s with config := mergeConfig s.config p }
  if p.smoothing.isSome then
    { s1 with analyzer := freshAnalyzer (defaultAnalyzerConfig s1.config.smoothing) }
  else s1

/-- `analyze()` as seen by the tick loop: the external frequency data (already
digested into a frame) passes through only when the analyzer is initialized. -/
def engineAnalyze (a : AudioAnalyzerState) (fr : AnalysisFrame) :
    Option AnalysisFrame :=
  if analyzerReady a = true then some fr else none

/-- One `animate` callback: bail when not running, reschedule, throttle by
`updateInterval`, pull a frame, and process it when one is available. -/
def animateTick (s : EngineState) (now : ℚ) (ext : AnalysisFrame) : EngineState :=
  if s.isRunning = false then s
  else
    let s1 := { s with animationFrame := s.animationFrame + 1 }
    if now - s1.lastUpdateTime < s1.config.updateInterval then s1
    else
      let s2 := { s1 with lastUpdateTime := now }
      match engineAnalyze s2.analyzer ext with
      | none => s2
      | some fr => processLipSync s2 fr

/-- A sequence of `animate` callbacks with their timestamps and external
frequency data. -/
def runTicks (s : EngineState) (ticks : List (ℚ × AnalysisFrame)) : EngineState :=
  ticks.foldl (fun st t => animateTick st t.1 t.2) s

/-- The sink value of the bound avatar, when one is bound. -/
def vrmSinkVal (s : EngineState) (mi idx : ℕ) : Option ℚ :=
  match s.vrm with
  | some av => sinkVal av.meshes mi idx
  | none => none

/-- The sink value of an optional avatar. -/
def optSinkVal (o : Option Avatar) (mi idx : ℕ) : Option ℚ :=
  match o with
  | some av => sinkVal av.meshes mi idx
  | none => none

/-- The externally observable engine state named by the `stop()` idempotence
property: running flag, pending frame handle, smoothed weights, analyzer
resources, and the avatar's channel sinks and expression weights (the
recompute counters are the avatar's own bookkeeping of `update` calls, not
part of the compared state). -/
def observableOf (s : EngineState) :
    Bool × ℕ × VowelWeights × AudioAnalyzerState ×
      Option (List Mesh × Option ExprMgr) :=
  (s.isRunning, s.animationFrame, s.smoothedWeights, s.analyzer,
   s.vrm.map (fun av => (av.meshes, av.exprMgr)))

/-! ### Concrete fixtures used by witnesses and counterexamples -/

/-- A mesh exposing the five VRC vowel channels. -/
def meshVrc : Mesh :=
  { dict := [("vrc.v_aa", 0), ("vrc.v_e", 1), ("vrc.v_ih", 2),
             ("vrc.v_oh", 3), ("vrc.v_ou", 4)]
    influences := [0, 0, 0, 0, 0] }

/-- An avatar with VRC vowel channels and no expression manager. -/
def avatarVrc : Avatar :=
  { meshes := [meshVrc], exprMgr := none, updateCount := 0, exprUpdateCount := 0 }

/-- An avatar with VRC vowel channels and an expression manager. -/
def avatarVrcExpr : Avatar :=
  { avatarVrc with exprMgr := some [("aa", 1 / 4), ("happy", 1 / 3)] }

/-- A mesh whose only channel is literally named `mouth_open`. -/
def meshMouth : Mesh := { dict := [("mouth_open", 0)], influences := [0] }

/-- An avatar with no recognized vowel channels and no expression manager,
but a `mouth_open` channel. -/
def avatarMouth : Avatar :=
  { meshes := [meshMouth], exprMgr := none, updateCount := 0, exprUpdateCount := 0 }

/-- The `MorphMapperConfig` the engine constructor builds. -/
def mapperCfgDefault : MorphMapperConfig :=
  { customMappings := [], useVRCMorphs := true, useExpressions := true }

/-- The `LipSyncConfig` defaults of the engine constructor. -/
def engineCfgDefault : LipSyncConfig :=
  { sensitivity := 7 / 10, smoothing := 8 / 10, minVolume := 10
    updateInterval := 16, customMorphMappings := [] }

/-- A running engine bound to the VRC avatar. -/
def engineVrc : EngineState :=
  { vrm := some avatarVrc, analyzer := freshAnalyzer (defaultAnalyzerConfig (8 / 10))
    mapperCfg := mapperCfgDefault, config := engineCfgDefault, animationFrame := 1
    isRunning := true, smoothedWeights := zeroWeights, lastUpdateTime := 0 }

/-- An engine configured with `smoothing = 1` and a half-open mouth. -/
def engineSmoothingOne : EngineState :=
  { vrm := none, analyzer := freshAnalyzer (defaultAnalyzerConfig 1)
    mapperCfg := mapperCfgDefault
    config := { engineCfgDefault with smoothing := 1 }
    animationFrame := 0, isRunning := true
    smoothedWeights := { aa := 1 / 2, e := 0, ih := 0, oh := 0, ou := 0 }
    lastUpdateTime := 0 }

/-- An engine with `smoothing = 1`, full sensitivity and all-zero weights. -/
def engineStuck : EngineState :=
  { engineSmoothingOne with
    smoothedWeights := zeroWeights
    config := { sensitivity := 1, smoothing := 1, minVolume := 10
                updateInterval := 16, customMorphMappings := [] } }

/-- An engine with `smoothing = 1/2` and a half-open mouth. -/
def engineDecay : EngineState :=
  { engineSmoothingOne with
    config := { engineCfgDefault with smoothing := 1 / 2 } }

/-- A frame whose volume is below the default threshold
(`0.05 * 100 = 5 < 10`) but whose vowel weights are far from zero. -/
def silentFrame : AnalysisFrame :=
  { volume := 1 / 20, dominantFrequency := 440, vowelWeights := ⟨1, 0, 0, 0, 0⟩ }

/-- A full-volume `aa` frame. -/
def loudFrame : AnalysisFrame :=
  { volume := 1, dominantFrequency := 440, vowelWeights := ⟨1, 0, 0, 0, 0⟩ }

/-- A `Partial<LipSyncConfig>` carrying only a `smoothing` field. -/
def partialSmoothing : PartialLipSyncConfig :=
  { sensitivity := none, smoothing := some (1 / 2), minVolume := none
    updateInterval := none, customMorphMappings := none }

/-- An input whose maximum vowel weight is 0.8. -/
def vwMouth : VowelWeights := ⟨4 / 5, 0, 0, 0, 0⟩

/-! ### Claim statements -/

/-- Volume behaviour of `analyze()` (claim C2, amended): the computed volume
is exactly the spec-worded RMS of the normalized above-floor magnitudes, it is
nonnegative, it is 0 when no bin exceeds the noise floor, and it lies in
`[0, 1]` provided every bin magnitude is at most `maxDecibels`. -/
def VolumeSpecProp (cfg : AudioAnalyzerConfig) (data : List ℚ) : Prop :=
  analyzeVolume cfg data = specVolume cfg data ∧
  0 ≤ analyzeVolume cfg data ∧
  ((∀ d ∈ data, ¬ cfg.minDecibels < d) → analyzeVolume cfg data = 0) ∧
  ((∀ d ∈ data, d ≤ cfg.maxDecibels) → analyzeVolume cfg data ≤ 1)

/-- Strategy short-circuit of `applyVowelWeights` (claim C3): when strategy 1
wrote at least one channel, strategies 2 and 3 touch nothing (the result is
the avatar updated by exactly the strategy-1 writes); and when the
expression-weight interface exists, strategy 3 never runs (and the mesh sinks
are untouched when strategy 1 did not apply). -/
def ShortCircuitProp (cfg : MorphMapperConfig) (av : Avatar) (vw : VowelWeights) : Prop :=
  (((applyVowelWeights cfg (some av) vw).2.vrcWrites ≠ []) →
    (applyVowelWeights cfg (some av) vw).2.exprCalls = [] ∧
    (applyVowelWeights cfg (some av) vw).2.altWrites = [] ∧
    (applyVowelWeights cfg (some av) vw).1 =
      some { av with
               meshes := applyWrites av.meshes (applyVowelWeights cfg (some av) vw).2.vrcWrites
               updateCount := av.updateCount + 1 }) ∧
  (av.exprMgr.isSome = true →
    (applyVowelWeights cfg (some av) vw).2.altWrites = [] ∧
    ((applyVowelWeights cfg (some av) vw).2.vrcWrites = [] →
      ((applyVowelWeights cfg (some av) vw).1).map Avatar.meshes = some av.meshes))

/-- Silence decay of `processLipSync` (claim C4, amended): below the volume
threshold the silence branch is taken regardless of the frame's vowel
weights; and for smoothing in `[0, 1)`, along consecutive silent ticks every
smoothed weight stays nonnegative, strictly decreases while positive, and
stays at exactly 0 once there. -/
def SilenceDecayProp (s : EngineState) (fr : AnalysisFrame) : Prop :=
  processLipSync s fr = smoothToSilence s ∧
  (0 ≤ s.config.smoothing → s.config.smoothing < 1 →
    ∀ (i : Fin 5) (n : ℕ),
      (0 ≤ s.smoothedWeights.comp i →
        0 ≤ (((fun st => processLipSync st fr)^[n]) s).smoothedWeights.comp i) ∧
      (0 ≤ s.smoothedWeights.comp i →
        0 < (((fun st => processLipSync st fr)^[n]) s).smoothedWeights.comp i →
        (((fun st => processLipSync st fr)^[n + 1]) s).smoothedWeights.comp i <
          (((fun st => processLipSync st fr)^[n]) s).smoothedWeights.comp i) ∧
      ((((fun st => processLipSync st fr)^[n]) s).smoothedWeights.comp i = 0 →
        (((fun st => processLipSync st fr)^[n + 1]) s).smoothedWeights.comp i = 0))

/-- Smoothing convergence of `processLipSync` (claim C5, amended to smoothing
in `[0, 1)`): under a constant non-silent frame, each vowel's smoothed weight
follows the linear interpolation with factor `1 − smoothing` toward
`rawWeight * scaledVolume`, approaches it monotonically from its side with no
overshoot, and its distance decays geometrically, hence below any positive
bound eventually. -/
def ConvergenceProp (s : EngineState) (fr : AnalysisFrame) : Prop :=
  ∀ i : Fin 5,
    (∀ n : ℕ,
      (((fun st => processLipSync st fr)^[n + 1]) s).smoothedWeights.comp i =
        lerp ((((fun st => processLipSync st fr)^[n]) s).smoothedWeights.comp i)
          (fr.vowelWeights.comp i * min 1 (fr.volume * s.config.sensitivity))
          (1 - s.config.smoothing)) ∧
    (∀ n : ℕ,
      s.smoothedWeights.comp i ≤
          fr.vowelWeights.comp i * min 1 (fr.volume * s.config.sensitivity) →
        (((fun st => processLipSync st fr)^[n]) s).smoothedWeights.comp i ≤
            (((fun st => processLipSync st fr)^[n + 1]) s).smoothedWeights.comp i ∧
          (((fun st => processLipSync st fr)^[n]) s).smoothedWeights.comp i ≤
            fr.vowelWeights.comp i * min 1 (fr.volume * s.config.sensitivity)) ∧
    (∀ n : ℕ,
      fr.vowelWeights.comp i * min 1 (fr.volume * s.config.sensitivity) ≤
          s.smoothedWeights.comp i →
        (((fun st => processLipSync st fr)^[n + 1]) s).smoothedWeights.comp i ≤
            (((fun st => processLipSync st fr)^[n]) s).smoothedWeights.comp i ∧
          fr.vowelWeights.comp i * min 1 (fr.volume * s.config.sensitivity) ≤
            (((fun st => processLipSync st fr)^[n]) s).smoothedWeights.comp i) ∧
    (∀ n : ℕ,
      |(((fun st => processLipSync st fr)^[n]) s).smoothedWeights.comp i -
          fr.vowelWeights.comp i * min 1 (fr.volume * s.config.sensitivity)| =
        |s.smoothedWeights.comp i -
            fr.vowelWeights.comp i * min 1 (fr.volume * s.config.sensitivity)| *
          s.config.smoothing ^ n) ∧
    (∀ ε : ℚ, 0 < ε → ∃ N : ℕ, ∀ n : ℕ, N ≤ n →
      |(((fun st => processLipSync st fr)^[n]) s).smoothedWeights.comp i -
          fr.vowelWeights.comp i * min 1 (fr.volume * s.config.sensitivity)| ≤ ε)

/-- Effect of `reset()` (claim C7): every sink mapped to a VRC vowel channel
reads 0, the expression weights are the canonical zeroing when the interface
exists, exactly one recompute is triggered, and every sink not mapped to a
VRC vowel channel is untouched. -/
def ResetProp (av : Avatar) : Prop :=
  (∀ n ∈ vrcVowelMorphs, ∀ t ∈ bucket (buildMorphTargetMap av.meshes) n,
    sinkVal (resetAvatar av).meshes t.1 t.2 = some 0) ∧
  (∀ mgr, av.exprMgr = some mgr →
    (resetAvatar av).exprMgr = some (mgr.map zeroCanonical)) ∧
  (resetAvatar av).updateCount = av.updateCount + 1 ∧
  (∀ mi idx,
    (∀ n ∈ vrcVowelMorphs, (mi, idx) ∉ bucket (buildMorphTargetMap av.meshes) n) →
    sinkVal (resetAvatar av).meshes mi idx = sinkVal av.meshes mi idx)

/-- Heuristic fallback result (claim C9): on an avatar with no recognized
vowel channels and no expression interface, after one apply every channel
whose lower-cased name contains one of the keyword patterns reads
`max(vowelWeights) * 0.5` at all of its sinks. -/
def FallbackProp (cfg : MorphMapperConfig) (av : Avatar) (vw : VowelWeights) : Prop :=
  ∀ name, (∃ pat ∈ alternativeMorphPatterns, nameMatches name pat = true) →
    ∀ t ∈ bucket (buildMorphTargetMap av.meshes) name,
      optSinkVal (applyVowelWeights cfg (some av) vw).1 t.1 t.2 =
        some (mouthValue vw * (1 / 2))

/-- Effect of `updateConfig` with a `smoothing` field (claim C10): the new
analyzer is uninitialized, `analyze()` yields nothing, and any sequence of
subsequent ticks leaves the smoothed weights and the avatar untouched while
the analyzer stays uninitialized. -/
def StaleAnalyzerProp (s : EngineState) (p : PartialLipSyncConfig) : Prop :=
  analyzerReady (updateConfig s p).analyzer = false ∧
  (∀ fr, engineAnalyze (updateConfig s p).analyzer fr = none) ∧
  (∀ ticks : List (ℚ × AnalysisFrame),
    (runTicks (updateConfig s p) ticks).smoothedWeights =
        (updateConfig s p).smoothedWeights ∧
      (runTicks (updateConfig s p) ticks).vrm = (updateConfig s p).vrm ∧
      analyzerReady ((runTicks (updateConfig s p) ticks).analyzer) = false)

/-! ## Helper lemmas: list updates and sink writes -/

theorem applyWrites_nil (ms : List Mesh) : applyWrites ms [] = ms := rfl

theorem applyWrites_cons (ms : List Mesh) (w : Write) (ws : List Write) :
    applyWrites ms (w :: ws) = applyWrites (writeSink ms w.1 w.2.1 w.2.2) ws := rfl

theorem applySinkWrites_nil (mi idx : ℕ) (v : Option ℚ) :
    applySinkWrites mi idx v [] = v := rfl

theorem applySinkWrites_cons (mi idx : ℕ) (v : Option ℚ) (w : Write) (ws : List Write) :
    applySinkWrites mi idx v (w :: ws) =
      applySinkWrites mi idx
        (if w.1 = mi ∧ w.2.1 = idx ∧ v.isSome = true then some w.2.2 else v) ws := rfl

theorem sinkVal_writeSink (ms : List Mesh) (a b : ℕ) (v : ℚ) (mi idx : ℕ) :
    sinkVal (writeSink ms a b v) mi idx =
      if a = mi ∧ b = idx ∧ (sinkVal ms mi idx).isSome = true then some v
      else sinkVal ms mi idx := by
  unfold writeSink
  cases hge : ms.get? a with
  | none =>
    have hge' : ms[a]? = none := by rw [← List.get?_eq_getElem?]; exact hge
    by_cases hmi : a = mi
    · subst hmi
      simp [sinkVal, List.get?_eq_getElem?, hge']
    · simp [hmi]
  | some m =>
    have hge' : ms[a]? = some m := by rw [← List.get?_eq_getElem?]; exact hge
    by_cases hmi : a = mi
    · subst hmi
      have hset : (ms.set a (m.setInfluence b v))[a]? = some (m.setInfluence b v) := by
        rw [List.getElem?_set_self', hge']; rfl
      have hsv : sinkVal ms a idx = m.influences.get? idx := by
        simp [sinkVal, List.get?_eq_getElem?, hge']
      have hsv2 : sinkVal (ms.set a (m.setInfluence b v)) a idx =
          (m.influences.set b v).get? idx := by
        unfold sinkVal
        rw [List.get?_eq_getElem?, hset]
        rfl
      rw [hsv2, hsv]
      simp only [true_and, if_pos rfl, eq_self_iff_true]
      by_cases hb : b = idx
      · subst hb
        rcases Nat.lt_or_ge b m.influences.length with hlt | hge2
        · rw [List.get?_eq_getElem?, List.get?_eq_getElem?, List.getElem?_set_self',
            List.getElem?_eq_getElem hlt]
          simp
        · have h1 : m.influences.get? b = none := by
            rw [List.get?_eq_getElem?]; exact List.getElem?_eq_none hge2
          have h2 : (m.influences.set b v).get? b = none := by
            rw [List.get?_eq_getElem?]
            exact List.getElem?_eq_none (by simpa using hge2)
          rw [h1, h2]
          simp
      · rw [List.get?_eq_getElem?, List.get?_eq_getElem?, List.getElem?_set_ne hb]
        simp [hb]
    · have hset : (ms.set a (m.setInfluence b v))[mi]? = ms[mi]? :=
        List.getElem?_set_ne hmi
      simp [sinkVal, List.get?_eq_getElem?, hset, hmi]

theorem writeSink_length (ms : List Mesh) (a b : ℕ) (v : ℚ) :
    (writeSink ms a b v).length = ms.length := by
  unfold writeSink
  cases ms.get? a <;> simp

theorem writeSink_getq_dict (ms : List Mesh) (a b : ℕ) (v : ℚ) (mi : ℕ) :
    ((writeSink ms a b v).get? mi).map Mesh.dict = (ms.get? mi).map Mesh.dict := by
  unfold writeSink
  cases hge : ms.get? a with
  | none => rfl
  | some m =>
    have hge' : ms[a]? = some m := by rw [← List.get?_eq_getElem?]; exact hge
    by_cases hmi : a = mi
    · subst hmi
      simp [List.get?_eq_getElem?, List.getElem?_set_self', hge', Mesh.setInfluence]
    · rw [List.get?_eq_getElem?, List.get?_eq_getElem?, List.getElem?_set_ne hmi]

theorem writeSink_getq_infl_length (ms : List Mesh) (a b : ℕ) (v : ℚ) (mi : ℕ) :
    ((writeSink ms a b v).get? mi).map (fun m => m.influences.length) =
      (ms.get? mi).map (fun m => m.influences.length) := by
  unfold writeSink
  cases hge : ms.get? a with
  | none => rfl
  | some m =>
    have hge' : ms[a]? = some m := by rw [← List.get?_eq_getElem?]; exact hge
    by_cases hmi : a = mi
    · subst hmi
      simp [List.get?_eq_getElem?, List.getElem?_set_self', hge', Mesh.setInfluence]
    · rw [List.get?_eq_getElem?, List.get?_eq_getElem?, List.getElem?_set_ne hmi]

theorem applyWrites_length (ms : List Mesh) (ws : List Write) :
    (applyWrites ms ws).length = ms.length := by
  induction ws generalizing ms with
  | nil => rfl
  | cons w ws ih =>
    rw [applyWrites_cons, ih, writeSink_length]

theorem applyWrites_getq_dict (ms : List Mesh) (ws : List Write) (mi : ℕ) :
    ((applyWrites ms ws).get? mi).map Mesh.dict = (ms.get? mi).map Mesh.dict := by
  induction ws generalizing ms with
  | nil => rfl
  | cons w ws ih =>
    rw [applyWrites_cons, ih, writeSink_getq_dict]

theorem applyWrites_getq_infl_length (ms : List Mesh) (ws : List Write) (mi : ℕ) :
    ((applyWrites ms ws).get? mi).map (fun m => m.influences.length) =
      (ms.get? mi).map (fun m => m.influences.length) := by
  induction ws generalizing ms with
  | nil => rfl
  | cons w ws ih =>
    rw [applyWrites_cons, ih, writeSink_getq_infl_length]

theorem applyWrites_map_dict (ms : List Mesh) (ws : List Write) :
    (applyWrites ms ws).map Mesh.dict = ms.map Mesh.dict := by
  apply List.ext_get?
  intro n
  rw [List.get?_eq_getElem?, List.get?_eq_getElem?, List.getElem?_map,
    List.getElem?_map, ← List.get?_eq_getElem?, ← List.get?_eq_getElem?,
    applyWrites_getq_dict]

theorem sinkVal_applyWrites (mi idx : ℕ) :
    ∀ (ws : List Write) (ms : List Mesh),
      sinkVal (applyWrites ms ws) mi idx =
        applySinkWrites mi idx (sinkVal ms mi idx) ws
  | [], ms => rfl
  | w :: ws, ms => by
    rw [applyWrites_cons, sinkVal_applyWrites mi idx ws, applySinkWrites_cons,
      sinkVal_writeSink]

theorem applySinkWrites_none (mi idx : ℕ) (ws : List Write) :
    applySinkWrites mi idx none ws = none := by
  induction ws with
  | nil => rfl
  | cons w ws ih =>
    rw [applySinkWrites_cons]
    simpa using ih

theorem applySinkWrites_isSome (mi idx : ℕ) (v : Option ℚ) (ws : List Write) :
    (applySinkWrites mi idx v ws).isSome = v.isSome := by
  induction ws generalizing v with
  | nil => rfl
  | cons w ws ih =>
    rw [applySinkWrites_cons]
    by_cases h : w.1 = mi ∧ w.2.1 = idx ∧ v.isSome = true
    · rw [if_pos h, ih]
      simp [h.2.2]
    · rw [if_neg h, ih]

theorem applySinkWrites_no_hit (mi idx : ℕ) (v : Option ℚ) (ws : List Write)
    (h : ∀ w ∈ ws, ¬(w.1 = mi ∧ w.2.1 = idx)) :
    applySinkWrites mi idx v ws = v := by
  induction ws generalizing v with
  | nil => rfl
  | cons w ws ih =>
    rw [applySinkWrites_cons]
    have hw := h w (List.mem_cons_self w ws)
    rw [if_neg (fun hc => hw ⟨hc.1, hc.2.1⟩)]
    exact ih v (fun u hu => h u (List.mem_cons_of_mem w hu))

theorem applySinkWrites_indep (mi idx : ℕ) (x y : ℚ) (ws : List Write)
    (h : ∃ w ∈ ws, w.1 = mi ∧ w.2.1 = idx) :
    applySinkWrites mi idx (some x) ws = applySinkWrites mi idx (some y) ws := by
  induction ws generalizing x y with
  | nil => simp at h
  | cons w ws ih =>
    rw [applySinkWrites_cons, applySinkWrites_cons]
    by_cases hw : w.1 = mi ∧ w.2.1 = idx
    · rw [if_pos ⟨hw.1, hw.2, rfl⟩, if_pos ⟨hw.1, hw.2, rfl⟩]
    · rw [if_neg (fun hc => hw ⟨hc.1, hc.2.1⟩), if_neg (fun hc => hw ⟨hc.1, hc.2.1⟩)]
      rcases h with ⟨u, hu, hhit⟩
      rcases List.mem_cons.mp hu with rfl | hmem
      · exact absurd hhit hw
      · exact ih x y ⟨u, hmem, hhit⟩

theorem applySinkWrites_const (mi idx : ℕ) (x c : ℚ) (ws : List Write)
    (hall : ∀ w ∈ ws, w.2.2 = c) (h : ∃ w ∈ ws, w.1 = mi ∧ w.2.1 = idx) :
    applySinkWrites mi idx (some x) ws = some c := by
  induction ws generalizing x with
  | nil => simp at h
  | cons w ws ih =>
    rw [applySinkWrites_cons]
    by_cases hw : w.1 = mi ∧ w.2.1 = idx
    · rw [if_pos ⟨hw.1, hw.2, rfl⟩]
      rw [hall w (List.mem_cons_self w ws)]
      by_cases hrest : ∃ u ∈ ws, u.1 = mi ∧ u.2.1 = idx
      · exact ih c (fun u hu => hall u (List.mem_cons_of_mem w hu)) hrest
      · exact applySinkWrites_no_hit mi idx (some c) ws
          (fun u hu hc => hrest ⟨u, hu, hc⟩)
    · rw [if_neg (fun hc => hw ⟨hc.1, hc.2.1⟩)]
      rcases h with ⟨u, hu, hhit⟩
      rcases List.mem_cons.mp hu with rfl | hmem
      · exact absurd hhit hw
      · exact ih x (fun u2 hu2 => hall u2 (List.mem_cons_of_mem w hu2)) ⟨u, hmem, hhit⟩



/-! ## Helper lemmas: mesh-list extensionality and write idempotence -/

theorem meshList_ext (ms1 ms2 : List Mesh)
    (hlen : ms1.length = ms2.length)
    (hdict : ∀ mi, (ms1.get? mi).map Mesh.dict = (ms2.get? mi).map Mesh.dict)
    (hsink : ∀ mi idx, sinkVal ms1 mi idx = sinkVal ms2 mi idx) :
    ms1 = ms2 := by
  apply List.ext_get?
  intro mi
  cases h1 : ms1.get? mi with
  | none =>
    have h : ms2.length ≤ mi := by rw [← hlen]; exact List.get?_eq_none.mp h1
    rw [List.get?_eq_none.mpr h]
  | some m1 =>
    cases h2 : ms2.get? mi with
    | none =>
      exfalso
      have hlt : mi < ms1.length := by
        rcases List.getElem?_eq_some_iff.mp
          (by rw [← List.get?_eq_getElem?]; exact h1) with ⟨h, _⟩
        exact h
      have h := List.get?_eq_none.mp h2
      omega
    | some m2 =>
      congr 1
      have hd := hdict mi
      rw [h1, h2] at hd
      simp only [Option.map_some'] at hd
      have hinfls : m1.influences = m2.influences := by
        apply List.ext_get?
        intro idx
        have hs := hsink mi idx
        unfold sinkVal at hs
        rw [h1, h2] at hs
        simpa using hs
      cases m1
      cases m2
      simp_all

theorem applyWrites_idem (ms : List Mesh) (ws : List Write) :
    applyWrites (applyWrites ms ws) ws = applyWrites ms ws := by
  apply meshList_ext
  · rw [applyWrites_length, applyWrites_length]
  · intro mi
    rw [applyWrites_getq_dict, applyWrites_getq_dict]
  · intro mi idx
    rw [sinkVal_applyWrites, sinkVal_applyWrites]
    by_cases hhit : ∃ w ∈ ws, w.1 = mi ∧ w.2.1 = idx
    · cases hv : sinkVal ms mi idx with
      | none => rw [applySinkWrites_none, applySinkWrites_none]
      | some x =>
        have h1 : (applySinkWrites mi idx (some x) ws).isSome = true := by
          rw [applySinkWrites_isSome]
          rfl
        rcases Option.isSome_iff_exists.mp h1 with ⟨y, hy⟩
        rw [hy, applySinkWrites_indep mi idx y x ws hhit]
        exact hy
    · have hn := applySinkWrites_no_hit mi idx (sinkVal ms mi idx) ws
        (fun w hw hc => hhit ⟨w, hw, hc⟩)
      rw [hn]
      exact hn

/-! ## Helper lemmas: the morph-target map -/

theorem bucket_insertTarget (m : MorphMap) (k : String) (t : ℕ × ℕ) (n : String) :
    bucket (insertTarget m k t) n =
      if k = n then bucket m n ++ [t] else bucket m n := by
  induction m with
  | nil =>
    by_cases hk : k = n
    · subst hk
      simp [insertTarget, bucket, mapGet]
    · simp [insertTarget, bucket, mapGet, hk, fun h => hk (beq_iff_eq.mp h)]
  | cons e rest ih =>
    rcases e with ⟨k2, ts⟩
    by_cases hk2 : k2 = k
    · subst hk2
      by_cases hn : k2 = n
      · subst hn
        simp [insertTarget, bucket, mapGet]
      · simp only [insertTarget, if_pos rfl]
        simp [bucket, mapGet, hn, fun h => hn (beq_iff_eq.mp h)]
    · by_cases hn : k2 = n
      · subst hn
        have hkn : ¬ k = k2 := fun h => hk2 h.symm
        simp only [insertTarget, if_neg hk2]
        simp [bucket, mapGet, hkn]
      · simp only [insertTarget, if_neg hk2]
        have hb : (k2 == n) = false := by
          exact Bool.eq_false_iff.mpr (fun h => hn (beq_iff_eq.mp h))
        simp only [bucket, mapGet, List.find?_cons, hb]
        exact ih

theorem bucket_innerFold (dict : List (String × ℕ)) (mi : ℕ) (n : String) :
    ∀ acc : MorphMap,
      bucket (dict.foldl (fun a p => insertTarget a p.1 (mi, p.2)) acc) n =
        bucket acc n ++
          (dict.filter (fun p => p.1 == n)).map (fun p => (mi, p.2)) := by
  induction dict with
  | nil => simp
  | cons p rest ih =>
    intro acc
    rw [List.foldl_cons, ih]
    by_cases hp : p.1 = n
    · rw [bucket_insertTarget, if_pos hp]
      have : (p.1 == n) = true := beq_iff_eq.mpr hp
      simp [List.filter_cons, this]
    · rw [bucket_insertTarget, if_neg hp]
      have : (p.1 == n) = false :=
        Bool.eq_false_iff.mpr (fun h => hp (beq_iff_eq.mp h))
      simp [List.filter_cons, this]

theorem bucket_outerFold (l : List (ℕ × List (String × ℕ))) (n : String) :
    ∀ acc : MorphMap,
      bucket
          (l.foldl
            (fun acc md =>
              md.2.foldl (fun acc2 p => insertTarget acc2 p.1 (md.1, p.2)) acc)
            acc) n =
        bucket acc n ++
          l.flatMap (fun md =>
            (md.2.filter (fun p => p.1 == n)).map (fun p => (md.1, p.2))) := by
  induction l with
  | nil => simp
  | cons md rest ih =>
    intro acc
    rw [List.foldl_cons, ih, bucket_innerFold]
    simp

theorem bucket_buildFromDicts (dicts : List (List (String × ℕ))) (n : String) :
    bucket (buildFromDicts dicts) n =
      (dicts.enum).flatMap (fun md =>
        (md.2.filter (fun p => p.1 == n)).map (fun p => (md.1, p.2))) := by
  unfold buildFromDicts
  rw [bucket_outerFold]
  simp [bucket, mapGet]

theorem mem_enumFrom_getq {α : Type} (l : List α) :
    ∀ (k i : ℕ) (a : α), (i, a) ∈ List.enumFrom k l →
      k ≤ i ∧ l.get? (i - k) = some a := by
  induction l with
  | nil => intro k i a h; simp at h
  | cons x xs ih =>
    intro k i a h
    rw [List.enumFrom_cons, List.mem_cons] at h
    rcases h with h | h
    · have h1 : i = k := congrArg Prod.fst h
      have h2 : a = x := congrArg Prod.snd h
      subst h1
      subst h2
      simp
    · rcases ih (k + 1) i a h with ⟨hk, hget⟩
      constructor
      · omega
      · have : i - k = (i - (k + 1)) + 1 := by omega
        rw [this]
        simpa using hget

theorem mem_bucket_build (meshes : List Mesh) (n : String) (mi idx : ℕ)
    (h : (mi, idx) ∈ bucket (buildMorphTargetMap meshes) n) :
    ∃ m, meshes.get? mi = some m ∧ (n, idx) ∈ m.dict := by
  unfold buildMorphTargetMap at h
  rw [bucket_buildFromDicts] at h
  rcases List.mem_flatMap.mp h with ⟨md, hmd, hmem⟩
  rcases List.mem_map.mp hmem with ⟨p, hp, hpe⟩
  have hmi : md.1 = mi := congrArg Prod.fst hpe
  have hidx : p.2 = idx := congrArg Prod.snd hpe
  rcases List.mem_filter.mp hp with ⟨hpd, hpn⟩
  have hpn' : p.1 = n := beq_iff_eq.mp hpn
  rcases md with ⟨i0, d0⟩
  simp only at hmi hpd hmd
  rcases mem_enumFrom_getq (meshes.map Mesh.dict) 0 i0 d0 (by simpa using hmd)
    with ⟨-, hget⟩
  rw [hmi] at hget
  simp only [Nat.sub_zero] at hget
  rw [List.get?_eq_getElem?, List.getElem?_map] at hget
  cases hm : meshes[mi]? with
  | none => rw [hm] at hget; simp at hget
  | some m =>
    refine ⟨m, by rw [List.get?_eq_getElem?]; exact hm, ?_⟩
    rw [hm] at hget
    simp only [Option.map_some'] at hget
    have hd : m.dict = d0 := by injection hget
    rw [hd]
    have : p = (n, idx) := by
      rcases p with ⟨pn, pi⟩
      simp only at hpn' hidx
      rw [hpn', hidx]
    rw [← this]
    exact hpd

theorem sinkVal_isSome_of_WF (av : Avatar) (hwf : av.WF) (mi idx : ℕ) (m : Mesh)
    (hm : av.meshes.get? mi = some m) (hd : ∃ n, (n, idx) ∈ m.dict) :
    (sinkVal av.meshes mi idx).isSome = true := by
  rcases hd with ⟨n, hnd⟩
  have hmem : m ∈ av.meshes := List.get?_mem hm
  have hlt : idx < m.influences.length := hwf m hmem (n, idx) hnd
  unfold sinkVal
  rw [hm]
  simp [List.get?_eq_getElem?, List.getElem?_eq_getElem hlt]
/-! ## Helper lemmas: the write lists of reset and the fallback strategy -/

theorem mem_resetWriteList (meshes : List Mesh) (w : Write) :
    w ∈ resetWriteList meshes ↔
      (∃ n ∈ vrcVowelMorphs, (w.1, w.2.1) ∈ bucket (buildMorphTargetMap meshes) n) ∧
        w.2.2 = 0 := by
  unfold resetWriteList
  rw [List.mem_flatMap]
  constructor
  · rintro ⟨n, hn, hw⟩
    rcases List.mem_map.mp hw with ⟨t, ht, he⟩
    subst he
    exact ⟨⟨n, hn, by simpa using ht⟩, rfl⟩
  · rintro ⟨⟨n, hn, ht⟩, hval⟩
    refine ⟨n, hn, ?_⟩
    rcases w with ⟨mi, idx, v⟩
    simp only at ht hval
    subst hval
    exact List.mem_map.mpr ⟨(mi, idx), ht, rfl⟩

theorem altWriteList_val (meshes : List Mesh) (vw : VowelWeights) :
    ∀ w ∈ altWriteList meshes vw, w.2.2 = mouthValue vw * (1 / 2) := by
  intro w hw
  unfold altWriteList at hw
  rcases List.mem_flatMap.mp hw with ⟨pat, _, hw2⟩
  rcases List.mem_flatMap.mp hw2 with ⟨e, _, hw3⟩
  cases hm : nameMatches e.1 pat with
  | true =>
    rw [if_pos hm] at hw3
    rcases List.mem_map.mp hw3 with ⟨t, _, he⟩
    subst he
    rfl
  | false =>
    rw [if_neg (by simp [hm])] at hw3
    simp at hw3

theorem mem_altWriteList_of (meshes : List Mesh) (vw : VowelWeights)
    (name : String) (ts : List (ℕ × ℕ)) (t : ℕ × ℕ)
    (hget : mapGet (buildMorphTargetMap meshes) name = some ts) (ht : t ∈ ts)
    (pat : String) (hpat : pat ∈ alternativeMorphPatterns)
    (hmatch : nameMatches name pat = true) :
    (t.1, t.2, mouthValue vw * (1 / 2)) ∈ altWriteList meshes vw := by
  unfold altWriteList
  apply List.mem_flatMap.mpr
  refine ⟨pat, hpat, ?_⟩
  apply List.mem_flatMap.mpr
  unfold mapGet at hget
  cases hf : (buildMorphTargetMap meshes).find? (fun e => e.1 == name) with
  | none =>
    rw [hf] at hget
    simp at hget
  | some e0 =>
    rw [hf] at hget
    simp only [Option.map_some'] at hget
    have he0 : e0 ∈ buildMorphTargetMap meshes := List.mem_of_find?_eq_some hf
    have hbeq : (e0.1 == name) = true := by
      have hp := List.find?_some hf
      simpa using hp
    have hname : e0.1 = name := beq_iff_eq.mp hbeq
    refine ⟨e0, he0, ?_⟩
    have hts : e0.2 = ts := by injection hget
    rw [hname, if_pos hmatch, hts]
    exact List.mem_map.mpr ⟨t, ht, rfl⟩

theorem vrcWriteList_empty (meshes : List Mesh) (vw : VowelWeights)
    (h : ∀ n ∈ vrcVowelMorphs, mapGet (buildMorphTargetMap meshes) n = none) :
    vrcWriteList meshes vw = [] := by
  have h1 := h "vrc.v_aa" (by simp [vrcVowelMorphs])
  have h2 := h "vrc.v_e" (by simp [vrcVowelMorphs])
  have h3 := h "vrc.v_ih" (by simp [vrcVowelMorphs])
  have h4 := h "vrc.v_oh" (by simp [vrcVowelMorphs])
  have h5 := h "vrc.v_ou" (by simp [vrcVowelMorphs])
  unfold vrcWriteList
  simp only [VowelWeights.entries, List.flatMap_cons, List.flatMap_nil,
    show vrcMapping "aa" = some "vrc.v_aa" from rfl,
    show vrcMapping "e" = some "vrc.v_e" from rfl,
    show vrcMapping "ih" = some "vrc.v_ih" from rfl,
    show vrcMapping "oh" = some "vrc.v_oh" from rfl,
    show vrcMapping "ou" = some "vrc.v_ou" from rfl,
    h1, h2, h3, h4, h5, List.append_nil]

/-! ## Helper lemmas: expression zeroing -/

theorem applyExprCalls_canonical (mgr : ExprMgr) :
    applyExprCalls mgr canonicalZeroCalls = mgr.map zeroCanonical := by
  unfold applyExprCalls canonicalZeroCalls exprSetValue
  simp only [List.foldl_cons, List.foldl_nil, List.map_map]
  apply List.map_congr_left
  intro p _
  rcases p with ⟨n, v⟩
  by_cases h1 : n = "aa" <;> by_cases h2 : n = "e" <;> by_cases h3 : n = "i" <;>
    by_cases h4 : n = "o" <;> by_cases h5 : n = "u" <;>
    simp [zeroCanonical, h1, h2, h3, h4, h5]

theorem zeroCanonical_idem (p : String × ℚ) :
    zeroCanonical (zeroCanonical p) = zeroCanonical p := by
  rcases p with ⟨n, v⟩
  unfold zeroCanonical
  by_cases h : (n == "aa") = true ∨ (n == "e") = true ∨ (n == "i") = true ∨
      (n == "o") = true ∨ (n == "u") = true
  · rw [if_pos h]
    simp only
    rw [if_pos h]
  · rw [if_neg h, if_neg h]

theorem map_zeroCanonical_idem (mgr : ExprMgr) :
    (mgr.map zeroCanonical).map zeroCanonical = mgr.map zeroCanonical := by
  rw [List.map_map]
  apply List.map_congr_left
  intro p _
  simp only [Function.comp_apply]
  exact zeroCanonical_idem p

/-! ## Helper lemmas: resetAvatar structure -/

theorem resetAvatar_meshes (av : Avatar) :
    (resetAvatar av).meshes = applyWrites av.meshes (resetWriteList av.meshes) := by
  unfold resetAvatar
  cases av.exprMgr <;> rfl

theorem resetAvatar_exprMgr (av : Avatar) :
    (resetAvatar av).exprMgr = av.exprMgr.map (fun mgr => mgr.map zeroCanonical) := by
  unfold resetAvatar
  cases av.exprMgr with
  | none => rfl
  | some mgr =>
    simp [applyExprCalls_canonical]

theorem resetAvatar_updateCount (av : Avatar) :
    (resetAvatar av).updateCount = av.updateCount + 1 := by
  unfold resetAvatar
  cases av.exprMgr <;> rfl

theorem buildMorphTargetMap_applyWrites (ms : List Mesh) (ws : List Write) :
    buildMorphTargetMap (applyWrites ms ws) = buildMorphTargetMap ms := by
  unfold buildMorphTargetMap
  rw [applyWrites_map_dict]

theorem resetWriteList_applyWrites (ms : List Mesh) (ws : List Write) :
    resetWriteList (applyWrites ms ws) = resetWriteList ms := by
  unfold resetWriteList
  rw [buildMorphTargetMap_applyWrites]

/-! ## Helper lemmas: the engine tick -/

theorem comp_stepWeights (cfg : LipSyncConfig) (fr : AnalysisFrame)
    (w : VowelWeights) (i : Fin 5) :
    (stepWeights cfg fr w).comp i =
      lerp (w.comp i) (fr.vowelWeights.comp i * min 1 (fr.volume * cfg.sensitivity))
        (1 - cfg.smoothing) := by
  fin_cases i <;> rfl

theorem comp_decayWeights (cfg : LipSyncConfig) (w : VowelWeights) (i : Fin 5) :
    (decayWeights cfg w).comp i = lerp (w.comp i) 0 (1 - cfg.smoothing) := by
  fin_cases i <;> rfl

theorem processLipSync_silent (s : EngineState) (fr : AnalysisFrame)
    (h : fr.volume * 100 < s.config.minVolume) :
    processLipSync s fr = smoothToSilence s := by
  unfold processLipSync
  rw [if_pos h]

theorem processLipSync_config (s : EngineState) (fr : AnalysisFrame) :
    (processLipSync s fr).config = s.config := by
  unfold processLipSync smoothToSilence
  split <;> rfl

theorem processLipSync_weights_silent (s : EngineState) (fr : AnalysisFrame)
    (h : fr.volume * 100 < s.config.minVolume) :
    (processLipSync s fr).smoothedWeights = decayWeights s.config s.smoothedWeights := by
  rw [processLipSync_silent s fr h]
  rfl

theorem processLipSync_weights_loud (s : EngineState) (fr : AnalysisFrame)
    (h : ¬ fr.volume * 100 < s.config.minVolume) :
    (processLipSync s fr).smoothedWeights = stepWeights s.config fr s.smoothedWeights := by
  unfold processLipSync
  rw [if_neg h]

theorem iterate_config (s : EngineState) (fr : AnalysisFrame) (n : ℕ) :
    (((fun st => processLipSync st fr)^[n]) s).config = s.config := by
  induction n with
  | zero => rfl
  | succ n ih =>
    rw [Function.iterate_succ_apply', processLipSync_config, ih]

theorem iterate_silent_weights (s : EngineState) (fr : AnalysisFrame)
    (h : fr.volume * 100 < s.config.minVolume) (n : ℕ) :
    (((fun st => processLipSync st fr)^[n + 1]) s).smoothedWeights =
      decayWeights s.config
        ((((fun st => processLipSync st fr)^[n]) s).smoothedWeights) := by
  rw [Function.iterate_succ_apply']
  have hc : (((fun st => processLipSync st fr)^[n]) s).config = s.config :=
    iterate_config s fr n
  have hsil : fr.volume * 100 <
      (((fun st => processLipSync st fr)^[n]) s).config.minVolume := by
    rw [hc]
    exact h
  rw [processLipSync_weights_silent _ fr hsil, hc]

theorem iterate_loud_weights (s : EngineState) (fr : AnalysisFrame)
    (h : ¬ fr.volume * 100 < s.config.minVolume) (n : ℕ) :
    (((fun st => processLipSync st fr)^[n + 1]) s).smoothedWeights =
      stepWeights s.config fr
        ((((fun st => processLipSync st fr)^[n]) s).smoothedWeights) := by
  rw [Function.iterate_succ_apply']
  have hc : (((fun st => processLipSync st fr)^[n]) s).config = s.config :=
    iterate_config s fr n
  have hloud : ¬ fr.volume * 100 <
      (((fun st => processLipSync st fr)^[n]) s).config.minVolume := by
    rw [hc]
    exact h
  rw [processLipSync_weights_loud _ fr hloud, hc]

theorem lerp_decay (a σ : ℚ) : lerp a 0 (1 - σ) = a * σ := by
  unfold lerp
  ring

theorem lerp_dist (a b σ : ℚ) : lerp a b (1 - σ) - b = (a - b) * σ := by
  unfold lerp
  ring

theorem silent_comp_closed (s : EngineState) (fr : AnalysisFrame)
    (h : fr.volume * 100 < s.config.minVolume) (i : Fin 5) (n : ℕ) :
    (((fun st => processLipSync st fr)^[n]) s).smoothedWeights.comp i =
      s.smoothedWeights.comp i * s.config.smoothing ^ n := by
  induction n with
  | zero => simp
  | succ n ih =>
    rw [iterate_silent_weights s fr h n, comp_decayWeights, lerp_decay, ih]
    ring

theorem loud_comp_closed (s : EngineState) (fr : AnalysisFrame)
    (h : ¬ fr.volume * 100 < s.config.minVolume) (i : Fin 5) (n : ℕ) :
    (((fun st => processLipSync st fr)^[n]) s).smoothedWeights.comp i -
        fr.vowelWeights.comp i * min 1 (fr.volume * s.config.sensitivity) =
      (s.smoothedWeights.comp i -
          fr.vowelWeights.comp i * min 1 (fr.volume * s.config.sensitivity)) *
        s.config.smoothing ^ n := by
  induction n with
  | zero => simp
  | succ n ih =>
    rw [iterate_loud_weights s fr h n, comp_stepWeights, lerp_dist, ih]
    ring

theorem animateTick_stuck (st : EngineState) (now : ℚ) (fr : AnalysisFrame)
    (h : analyzerReady st.analyzer = false) :
    (animateTick st now fr).smoothedWeights = st.smoothedWeights ∧
      (animateTick st now fr).vrm = st.vrm ∧
      (animateTick st now fr).analyzer = st.analyzer := by
  unfold animateTick
  by_cases hr : st.isRunning = false
  · rw [if_pos hr]
    exact ⟨rfl, rfl, rfl⟩
  · rw [if_neg hr]
    by_cases ht : now - st.lastUpdateTime < st.config.updateInterval
    · rw [if_pos ht]
      exact ⟨rfl, rfl, rfl⟩
    · rw [if_neg ht]
      have hna : engineAnalyze st.analyzer fr = none := by
        unfold engineAnalyze
        rw [if_neg (by simp [h])]
      simp only
      rw [show engineAnalyze st.analyzer fr = none from hna]
      exact ⟨rfl, rfl, rfl⟩

/-! ## Helper lemmas: stop and reset idempotence -/

theorem dispose_dispose (a : AudioAnalyzerState) :
    a.dispose.dispose = a.dispose := rfl

theorem stop_fields (s : EngineState) :
    (stop s).isRunning = false ∧ (stop s).animationFrame = 0 ∧
      (stop s).smoothedWeights = zeroWeights ∧
      (stop s).vrm = MorphMapper.reset s.vrm ∧
      (stop s).analyzer = s.analyzer.dispose := by
  by_cases h : s.animationFrame ≠ 0
  · simp [stop, h]
  · have h0 : s.animationFrame = 0 := not_not.mp h
    simp [stop, h, h0]

theorem resetAvatar_meshes_idem (av : Avatar) :
    (resetAvatar (resetAvatar av)).meshes = (resetAvatar av).meshes := by
  rw [resetAvatar_meshes, resetAvatar_meshes, resetWriteList_applyWrites,
    applyWrites_idem]

theorem resetAvatar_exprMgr_idem (av : Avatar) :
    (resetAvatar (resetAvatar av)).exprMgr = (resetAvatar av).exprMgr := by
  rw [resetAvatar_exprMgr, resetAvatar_exprMgr]
  cases hx : av.exprMgr with
  | none => rfl
  | some mgr =>
    simp only [hx, Option.map_some']
    congr 1
    rw [List.map_map]
    apply List.map_congr_left
    intro q _
    simp only [Function.comp_apply]
    exact zeroCanonical_idem q

theorem reset_reset_observable (v : Option Avatar) :
    (MorphMapper.reset (MorphMapper.reset v)).map (fun av => (av.meshes, av.exprMgr)) =
      (MorphMapper.reset v).map (fun av => (av.meshes, av.exprMgr)) := by
  cases v with
  | none => rfl
  | some av =>
    simp only [MorphMapper.reset, Option.map_some']
    have hm := resetAvatar_meshes_idem av
    have he := resetAvatar_exprMgr_idem av
    simp [hm, he]
/-! ## Claim theorems -/

/-- Claim C6: for every dominant frequency, the computed vowel-weight vector
sums to exactly 1 whenever any vowel's raw proximity score is nonzero, and it
is all-zero only when all five proximity scores are zero. -/
theorem claim6_vowel_weights_normalized (freq : ℚ) :
    (rawProximities freq ≠ zeroWeights →
      sumWeights (calculateVowelWeights freq) = 1) ∧
    (calculateVowelWeights freq = zeroWeights → rawProximities freq = zeroWeights) := by
  have hpos : ∀ f1 f2 : ℚ, 0 < proximity freq f1 f2 := by
    intro f1 f2
    unfold proximity
    have h1 : (0 : ℚ) ≤ |freq - f1| := abs_nonneg _
    have h2 : (0 : ℚ) ≤ |freq - f2| := abs_nonneg _
    have hd : (0 : ℚ) < 1 + (|freq - f1| + |freq - f2|) / 1000 := by positivity
    positivity
  have haa := hpos 700 1220
  have he := hpos 530 1840
  have hih := hpos 390 1990
  have hoh := hpos 570 840
  have hou := hpos 370 950
  have htot : 0 < sumWeights (rawProximities freq) := by
    unfold sumWeights rawProximities
    dsimp only
    linarith
  constructor
  · intro _
    unfold calculateVowelWeights
    dsimp only
    rw [if_pos htot]
    unfold sumWeights at htot ⊢
    rw [div_add_div_same, div_add_div_same, div_add_div_same, div_add_div_same,
      div_self (ne_of_gt htot)]
  · intro hz
    exfalso
    have h1 : (calculateVowelWeights freq).aa = 0 := by rw [hz]; rfl
    unfold calculateVowelWeights at h1
    dsimp only at h1
    rw [if_pos htot] at h1
    dsimp only at h1
    have h2 : 0 < (rawProximities freq).aa / sumWeights (rawProximities freq) := by
      apply div_pos _ htot
      exact haa
    rw [h1] at h2
    exact lt_irrefl 0 h2

/-- Witness for C6 at the concrete dominant frequency 440 Hz. -/
theorem claim6_witness :
    rawProximities 440 ≠ zeroWeights ∧ sumWeights (calculateVowelWeights 440) = 1 :=
  ⟨by with_unfolding_all decide,
   (claim6_vowel_weights_normalized 440).1 (by with_unfolding_all decide)⟩

/-- Claim C1 (code bug): `stop()` does not cancel an in-flight
`runTestSequence`. On a running engine bound to an avatar with the five VRC
vowel channels, after `stop()` returns (running flag cleared, all VRC sinks
and smoothed weights zeroed), the next pending test-sequence step — the loop
body reads no run-state flag and `testVowel` checks only that a VRM is
bound — still writes `vrc.v_aa = 0.5` to the mesh. -/
theorem claim1_stop_does_not_cancel_test_sequence :
    (stop engineVrc).isRunning = false ∧
      (stop engineVrc).smoothedWeights = zeroWeights ∧
      vrmSinkVal (stop engineVrc) 0 0 = some 0 ∧
      vrmSinkVal (testSequenceStep (stop engineVrc) "aa" 5) 0 0 = some (1 / 2) := by
  refine ⟨by decide, by decide, ?_, ?_⟩
  · with_unfolding_all decide
  · with_unfolding_all decide

/-- Claim C8: `stop()` is idempotent — after one call the engine is stopped
with zero smoothed weights, the resolver reset applied and the analyzer
released, and a second call changes none of that observable state. -/
theorem claim8_stop_idempotent (s : EngineState) :
    (stop s).isRunning = false ∧
      (stop s).smoothedWeights = zeroWeights ∧
      (stop s).vrm = MorphMapper.reset s.vrm ∧
      analyzerReady (stop s).analyzer = false ∧
      observableOf (stop (stop s)) = observableOf (stop s) := by
  obtain ⟨h1, h2, h3, h4, h5⟩ := stop_fields s
  obtain ⟨g1, g2, g3, g4, g5⟩ := stop_fields (stop s)
  refine ⟨h1, h3, h4, ?_, ?_⟩
  · rw [h5]
    rfl
  · unfold observableOf
    rw [g1, h1, g2, h2, g3, h3, g4, g5, h5, h4, dispose_dispose]
    rw [reset_reset_observable]

/-- Claim C10: `updateConfig` with a `smoothing` field while running replaces
the analyzer with an uninitialized instance, so every subsequent `analyze()`
returns nothing and every subsequent tick leaves the smoothed weights and the
avatar untouched until the engine is started again. -/
theorem claim10_updateConfig_smoothing_stalls (s : EngineState)
    (p : PartialLipSyncConfig) (_hrun : s.isRunning = true)
    (hsm : p.smoothing.isSome = true) :
    StaleAnalyzerProp s p := by
  have hana : (updateConfig s p).analyzer =
      freshAnalyzer (defaultAnalyzerConfig (mergeConfig s.config p).smoothing) := by
    unfold updateConfig
    rw [if_pos hsm]
  have hready : analyzerReady (updateConfig s p).analyzer = false := by
    rw [hana]
    rfl
  refine ⟨hready, ?_, ?_⟩
  · intro fr
    unfold engineAnalyze
    rw [if_neg (by simp [hready])]
  · have key : ∀ (ticks : List (ℚ × AnalysisFrame)) (st : EngineState),
        analyzerReady st.analyzer = false →
        (runTicks st ticks).smoothedWeights = st.smoothedWeights ∧
          (runTicks st ticks).vrm = st.vrm ∧
          (runTicks st ticks).analyzer = st.analyzer := by
      intro ticks
      induction ticks with
      | nil => intro st _; exact ⟨rfl, rfl, rfl⟩
      | cons t ts ih =>
        intro st h
        rcases animateTick_stuck st t.1 t.2 h with ⟨a1, a2, a3⟩
        have h2 : analyzerReady (animateTick st t.1 t.2).analyzer = false := by
          rw [a3]
          exact h
        rcases ih (animateTick st t.1 t.2) h2 with ⟨b1, b2, b3⟩
        have hstep : runTicks st (t :: ts) = runTicks (animateTick st t.1 t.2) ts := rfl
        exact ⟨by rw [hstep, b1, a1], by rw [hstep, b2, a2], by rw [hstep, b3, a3]⟩
    intro ticks
    rcases key ticks (updateConfig s p) hready with ⟨a, b, c⟩
    exact ⟨a, b, by rw [c]; exact hready⟩

/-- Witness for C10 on the running VRC engine with a partial config holding
only a smoothing field. -/
theorem claim10_witness :
    engineVrc.isRunning = true ∧ partialSmoothing.smoothing.isSome = true ∧
      StaleAnalyzerProp engineVrc partialSmoothing :=
  ⟨rfl, rfl, claim10_updateConfig_smoothing_stalls engineVrc partialSmoothing rfl rfl⟩

/-- Claim C3: strategy short-circuit of `applyVowelWeights` — when the direct
VRC strategy writes at least one channel, the expression and fallback
strategies touch nothing; and whenever the expression interface exists (with
the engine's `useExpressions = true` configuration), the heuristic fallback
never runs. -/
theorem claim3_strategy_short_circuit (cfg : MorphMapperConfig) (av : Avatar)
    (vw : VowelWeights) (hexp : cfg.useExpressions = true) :
    ShortCircuitProp cfg av vw := by
  unfold ShortCircuitProp applyVowelWeights
  dsimp only
  by_cases hv : (if cfg.useVRCMorphs = true then vrcWriteList av.meshes vw else []) ≠ []
  · rw [if_pos hv]
    refine ⟨fun _ => ⟨rfl, rfl, rfl⟩, fun _ => ⟨rfl, fun hc => absurd hc hv⟩⟩
  · rw [if_neg hv]
    rw [hexp]
    cases hm : av.exprMgr with
    | some mgr =>
      refine ⟨fun hc => absurd (not_not.mp hv) hc, fun _ => ⟨rfl, fun _ => rfl⟩⟩
    | none =>
      refine ⟨fun hc => absurd (not_not.mp hv) hc, fun hsome => ?_⟩
      simp at hsome

/-- Witness for C3 on an avatar exposing both VRC channels and an expression
manager, with a pure `aa` input. -/
theorem claim3_witness :
    mapperCfgDefault.useExpressions = true ∧
      ShortCircuitProp mapperCfgDefault avatarVrcExpr ⟨1, 0, 0, 0, 0⟩ :=
  ⟨rfl, claim3_strategy_short_circuit mapperCfgDefault avatarVrcExpr ⟨1, 0, 0, 0, 0⟩ rfl⟩

/-- Claim C4 (amended): below the volume threshold the silence-decay branch
is taken regardless of the frame's vowel weights, and for smoothing in
`[0, 1)` every smoothed weight stays nonnegative, strictly decreases while
positive, and stays at 0 once there. (At smoothing = 1 the decay multiplies
by 1 and the weights do not decrease — see the counterexample.) -/
theorem claim4_silence_decay (s : EngineState) (fr : AnalysisFrame)
    (h : fr.volume * 100 < s.config.minVolume) :
    SilenceDecayProp s fr := by
  constructor
  · exact processLipSync_silent s fr h
  · intro h0 h1 i n
    have hstep : ∀ m : ℕ,
        (((fun st => processLipSync st fr)^[m + 1]) s).smoothedWeights.comp i =
          (((fun st => processLipSync st fr)^[m]) s).smoothedWeights.comp i *
            s.config.smoothing := by
      intro m
      rw [iterate_silent_weights s fr h m, comp_decayWeights, lerp_decay]
    have hclosed := silent_comp_closed s fr h i
    refine ⟨?_, ?_, ?_⟩
    · intro hw0
      rw [hclosed n]
      exact mul_nonneg hw0 (pow_nonneg h0 n)
    · intro _ hpos
      rw [hstep n]
      exact mul_lt_of_lt_one_right hpos h1
    · intro hz
      rw [hstep n, hz, zero_mul]

/-- Counterexample to claim C4 as stated: with `smoothing = 1` (allowed by
the claim's range `[0, 1]`), a silent tick leaves a positive smoothed weight
unchanged instead of strictly decreasing it. -/
theorem claim4_counterexample :
    silentFrame.volume * 100 < engineSmoothingOne.config.minVolume ∧
      0 ≤ engineSmoothingOne.config.smoothing ∧
      engineSmoothingOne.config.smoothing ≤ 1 ∧
      0 < engineSmoothingOne.smoothedWeights.aa ∧
      (processLipSync engineSmoothingOne silentFrame).smoothedWeights.aa =
        engineSmoothingOne.smoothedWeights.aa ∧
      ¬ (processLipSync engineSmoothingOne silentFrame).smoothedWeights.aa <
          engineSmoothingOne.smoothedWeights.aa := by
  with_unfolding_all decide

/-- Witness for C4 on a half-open mouth with smoothing 1/2 and the quiet
frame of end-to-end scenario C (volume 0.05, threshold 10). -/
theorem claim4_witness :
    silentFrame.volume * 100 < engineDecay.config.minVolume ∧
      SilenceDecayProp engineDecay silentFrame :=
  ⟨by with_unfolding_all decide,
   claim4_silence_decay engineDecay silentFrame (by with_unfolding_all decide)⟩

/-- Claim C5 (amended to smoothing in `[0, 1)`): under a constant non-silent
frame, each vowel's smoothed weight follows linear interpolation with factor
`1 − smoothing` toward `rawWeight * scaledVolume`, approaches it
monotonically with no overshoot, and its distance decays geometrically below
any positive bound. (At smoothing = 1 the weight never moves — see the
counterexample.) -/
theorem claim5_smoothing_convergence (s : EngineState) (fr : AnalysisFrame)
    (h : ¬ fr.volume * 100 < s.config.minVolume) (h0 : 0 ≤ s.config.smoothing)
    (h1 : s.config.smoothing < 1) :
    ConvergenceProp s fr := by
  intro i
  have hclosed := loud_comp_closed s fr h i
  have hstep : ∀ n : ℕ,
      (((fun st => processLipSync st fr)^[n + 1]) s).smoothedWeights.comp i =
        lerp ((((fun st => processLipSync st fr)^[n]) s).smoothedWeights.comp i)
          (fr.vowelWeights.comp i * min 1 (fr.volume * s.config.sensitivity))
          (1 - s.config.smoothing) := by
    intro n
    rw [iterate_loud_weights s fr h n, comp_stepWeights]
  refine ⟨hstep, ?_, ?_, ?_, ?_⟩
  · intro n hle
    have hn := hclosed n
    have hn1 := hclosed (n + 1)
    have hd0 : s.smoothedWeights.comp i -
        fr.vowelWeights.comp i * min 1 (fr.volume * s.config.sensitivity) ≤ 0 := by
      linarith
    have hσn : (0 : ℚ) ≤ s.config.smoothing ^ n := pow_nonneg h0 n
    have hmono : s.config.smoothing ^ (n + 1) ≤ s.config.smoothing ^ n :=
      pow_le_pow_of_le_one h0 (le_of_lt h1) (Nat.le_succ n)
    have hprod := mul_le_mul_of_nonpos_left hmono hd0
    constructor
    · linarith
    · nlinarith
  · intro n hle
    have hn := hclosed n
    have hn1 := hclosed (n + 1)
    have hd0 : 0 ≤ s.smoothedWeights.comp i -
        fr.vowelWeights.comp i * min 1 (fr.volume * s.config.sensitivity) := by
      linarith
    have hσn : (0 : ℚ) ≤ s.config.smoothing ^ n := pow_nonneg h0 n
    have hmono : s.config.smoothing ^ (n + 1) ≤ s.config.smoothing ^ n :=
      pow_le_pow_of_le_one h0 (le_of_lt h1) (Nat.le_succ n)
    have hprod := mul_le_mul_of_nonneg_left hmono hd0
    constructor
    · linarith
    · nlinarith
  · intro n
    rw [hclosed n, abs_mul, abs_pow, abs_of_nonneg h0]
  · intro ε hε
    by_cases hz : |s.smoothedWeights.comp i -
        fr.vowelWeights.comp i * min 1 (fr.volume * s.config.sensitivity)| = 0
    · refine ⟨0, fun n _ => ?_⟩
      rw [hclosed n, abs_mul, abs_pow, abs_of_nonneg h0, hz, zero_mul]
      exact le_of_lt hε
    · have hpos : 0 < |s.smoothedWeights.comp i -
          fr.vowelWeights.comp i * min 1 (fr.volume * s.config.sensitivity)| :=
        lt_of_le_of_ne (abs_nonneg _) (Ne.symm hz)
      rcases exists_pow_lt_of_lt_one (div_pos hε hpos) h1 with ⟨N, hN⟩
      refine ⟨N, fun n hn => ?_⟩
      have hmn : s.config.smoothing ^ n ≤ s.config.smoothing ^ N :=
        pow_le_pow_of_le_one h0 (le_of_lt h1) hn
      rw [hclosed n, abs_mul, abs_pow, abs_of_nonneg h0]
      have hb1 := mul_le_mul_of_nonneg_left hmn (abs_nonneg
        (s.smoothedWeights.comp i -
          fr.vowelWeights.comp i * min 1 (fr.volume * s.config.sensitivity)))
      have hb2 := mul_le_mul_of_nonneg_left (le_of_lt hN) (abs_nonneg
        (s.smoothedWeights.comp i -
          fr.vowelWeights.comp i * min 1 (fr.volume * s.config.sensitivity)))
      have heq : |s.smoothedWeights.comp i -
          fr.vowelWeights.comp i * min 1 (fr.volume * s.config.sensitivity)| *
            (ε / |s.smoothedWeights.comp i -
              fr.vowelWeights.comp i * min 1 (fr.volume * s.config.sensitivity)|) =
          ε := by
        field_simp
      linarith

/-- Counterexample to claim C5 as stated: with `smoothing = 1` (interpolation
factor 0) under a full-volume constant frame, the smoothed weight never moves
toward its target — no convergence occurs. -/
theorem claim5_counterexample :
    ¬ (loudFrame.volume * 100 < engineStuck.config.minVolume) ∧
      0 ≤ engineStuck.config.smoothing ∧ engineStuck.config.smoothing ≤ 1 ∧
      loudFrame.vowelWeights.aa *
          min 1 (loudFrame.volume * engineStuck.config.sensitivity) = 1 ∧
      engineStuck.smoothedWeights.aa = 0 ∧
      (processLipSync engineStuck loudFrame).smoothedWeights.aa =
        engineStuck.smoothedWeights.aa := by
  with_unfolding_all decide

/-- Witness for C5 with smoothing 1/2 under the full-volume `aa` frame. -/
theorem claim5_witness :
    ¬ (loudFrame.volume * 100 < engineDecay.config.minVolume) ∧
      0 ≤ engineDecay.config.smoothing ∧ engineDecay.config.smoothing < 1 ∧
      ConvergenceProp engineDecay loudFrame :=
  ⟨by with_unfolding_all decide, by with_unfolding_all decide,
   by with_unfolding_all decide,
   claim5_smoothing_convergence engineDecay loudFrame
     (by with_unfolding_all decide) (by with_unfolding_all decide)
     (by with_unfolding_all decide)⟩

/-! ## Helper lemmas: the volume computation -/

theorem volumeStats_eq (cfg : AudioAnalyzerConfig) (data : List ℚ) :
    volumeStats cfg data =
      (((data.filter (fun d => decide (cfg.minDecibels < d))).map
          (fun d => normalizedBin cfg d * normalizedBin cfg d)).sum,
       (data.filter (fun d => decide (cfg.minDecibels < d))).length) := by
  have aux : ∀ (l : List ℚ) (init : ℚ × ℕ),
      l.foldl
          (fun sc d => if cfg.minDecibels < d then
            (sc.1 + normalizedBin cfg d * normalizedBin cfg d, sc.2 + 1) else sc)
          init =
        (init.1 + ((l.filter (fun d => decide (cfg.minDecibels < d))).map
            (fun d => normalizedBin cfg d * normalizedBin cfg d)).sum,
         init.2 + (l.filter (fun d => decide (cfg.minDecibels < d))).length) := by
    intro l
    induction l with
    | nil =>
      intro init
      simp
    | cons d rest ih =>
      intro init
      rw [List.foldl_cons]
      by_cases hd : cfg.minDecibels < d
      · rw [if_pos hd, ih]
        have hf : List.filter (fun d => decide (cfg.minDecibels < d)) (d :: rest) =
            d :: List.filter (fun d => decide (cfg.minDecibels < d)) rest := by
          simp [List.filter_cons, hd]
        rw [hf]
        refine Prod.ext ?_ ?_
        · dsimp only
          rw [List.map_cons, List.sum_cons]
          ring
        · dsimp only
          rw [List.length_cons]
          omega
      · rw [if_neg hd, ih]
        have hf : List.filter (fun d => decide (cfg.minDecibels < d)) (d :: rest) =
            List.filter (fun d => decide (cfg.minDecibels < d)) rest := by
          simp [List.filter_cons, hd]
        rw [hf]
  unfold volumeStats
  rw [aux]
  simp

theorem analyzeVolumeSq_eq_spec (cfg : AudioAnalyzerConfig) (data : List ℚ) :
    analyzeVolumeSq cfg data = specVolumeSq cfg data := by
  unfold analyzeVolumeSq specVolumeSq
  rw [volumeStats_eq]
  dsimp only
  rw [List.length_map, List.map_map]
  by_cases h0 : (data.filter (fun d => decide (cfg.minDecibels < d))).length = 0
  · rw [if_neg (by omega), if_pos h0]
  · rw [if_pos (by omega), if_neg h0]
    rfl

theorem normalizedBin_nonneg (cfg : AudioAnalyzerConfig) (d : ℚ)
    (hcfg : cfg.minDecibels < cfg.maxDecibels) (hd : cfg.minDecibels < d) :
    0 ≤ normalizedBin cfg d := by
  unfold normalizedBin
  apply div_nonneg <;> linarith

theorem normalizedBin_le_one (cfg : AudioAnalyzerConfig) (d : ℚ)
    (hcfg : cfg.minDecibels < cfg.maxDecibels) (hd : d ≤ cfg.maxDecibels) :
    normalizedBin cfg d ≤ 1 := by
  unfold normalizedBin
  rw [div_le_one (by linarith)]
  linarith

/-- Claim C2 (amended): `analyze()`'s volume is exactly the spec-worded RMS
over the normalized above-floor bins, it is nonnegative, it is 0 when no bin
exceeds the floor, and it lies in `[0, 1]` provided every bin magnitude is at
most `maxDecibels`. (A bin above `maxDecibels` normalizes above 1 and pushes
the volume above 1 — see the counterexample.) -/
theorem claim2_volume_amended (cfg : AudioAnalyzerConfig) (data : List ℚ)
    (hcfg : cfg.minDecibels < cfg.maxDecibels) :
    VolumeSpecProp cfg data := by
  refine ⟨?_, Real.sqrt_nonneg _, ?_, ?_⟩
  · unfold analyzeVolume specVolume
    rw [analyzeVolumeSq_eq_spec]
  · intro hnone
    unfold analyzeVolume
    have hz : analyzeVolumeSq cfg data = 0 := by
      unfold analyzeVolumeSq
      rw [volumeStats_eq]
      dsimp only
      have hfilter : data.filter (fun d => decide (cfg.minDecibels < d)) = [] := by
        rw [List.filter_eq_nil_iff]
        intro d hd
        simpa using hnone d hd
      rw [hfilter]
      simp
    rw [hz]
    simp
  · intro hle
    unfold analyzeVolume
    rw [show (1 : ℝ) = Real.sqrt 1 from (Real.sqrt_one).symm]
    apply Real.sqrt_le_sqrt
    have hq : analyzeVolumeSq cfg data ≤ 1 := by
      unfold analyzeVolumeSq
      rw [volumeStats_eq]
      dsimp only
      by_cases h0 : 0 < (data.filter (fun d => decide (cfg.minDecibels < d))).length
      · rw [if_pos h0]
        rw [div_le_one (by exact_mod_cast h0)]
        have hbound : ∀ x ∈ (data.filter (fun d => decide (cfg.minDecibels < d))).map
            (fun d => normalizedBin cfg d * normalizedBin cfg d), x ≤ (1 : ℚ) := by
          intro x hx
          rcases List.mem_map.mp hx with ⟨d, hd, he⟩
          subst he
          have hdmem : d ∈ data := List.mem_of_mem_filter hd
          have hdgt : cfg.minDecibels < d := by
            have := List.of_mem_filter hd
            simpa using this
          have h1 := normalizedBin_nonneg cfg d hcfg hdgt
          have h2 := normalizedBin_le_one cfg d hcfg (hle d hdmem)
          nlinarith
        have hsum := List.sum_le_card_nsmul _ 1 hbound
        rw [List.length_map] at hsum
        rw [nsmul_eq_mul, mul_one] at hsum
        exact hsum
      · rw [if_neg h0]
        norm_num
    calc ((analyzeVolumeSq cfg data : ℚ) : ℝ) ≤ ((1 : ℚ) : ℝ) := by exact_mod_cast hq
      _ = 1 := by norm_num

/-- Counterexample to claim C2 as stated: with the default configuration
(noise floor −90 dB, ceiling −10 dB) and a single bin at 0 dB — above the
ceiling — the computed volume is 9/8, outside `[0, 1]`. -/
theorem claim2_counterexample :
    1 < analyzeVolume (defaultAnalyzerConfig (8 / 10)) [0] := by
  have hsq : analyzeVolumeSq (defaultAnalyzerConfig (8 / 10)) [0] = 81 / 64 := by
    with_unfolding_all decide
  unfold analyzeVolume
  rw [hsq]
  have h1 : ((81 / 64 : ℚ) : ℝ) = (9 / 8 : ℝ) ^ 2 := by norm_num
  rw [h1, Real.sqrt_sq (by norm_num : (0 : ℝ) ≤ 9 / 8)]
  norm_num

/-- Witness for C2 on the default configuration with one bin above and one
bin below the noise floor. -/
theorem claim2_witness :
    (defaultAnalyzerConfig (8 / 10)).minDecibels <
        (defaultAnalyzerConfig (8 / 10)).maxDecibels ∧
      VolumeSpecProp (defaultAnalyzerConfig (8 / 10)) [-20, -95] :=
  ⟨by norm_num [defaultAnalyzerConfig],
   claim2_volume_amended (defaultAnalyzerConfig (8 / 10)) [-20, -95]
     (by norm_num [defaultAnalyzerConfig])⟩

/-- Claim C7: `reset()` zeroes every sink mapped to one of the five VRC vowel
channels, zeroes the five canonical expression names when the expression
interface exists, triggers exactly one avatar recompute, and leaves every
sink not mapped to a VRC vowel channel unchanged. -/
theorem claim7_reset_effect (av : Avatar) (hwf : av.WF) : ResetProp av := by
  refine ⟨?_, ?_, resetAvatar_updateCount av, ?_⟩
  · intro n hn t ht
    rw [resetAvatar_meshes, sinkVal_applyWrites]
    rcases mem_bucket_build av.meshes n t.1 t.2 (by rw [Prod.mk.eta]; exact ht)
      with ⟨m, hm, hd⟩
    have hvalid := sinkVal_isSome_of_WF av hwf t.1 t.2 m hm ⟨n, hd⟩
    cases hs : sinkVal av.meshes t.1 t.2 with
    | none =>
      rw [hs] at hvalid
      simp at hvalid
    | some x =>
      apply applySinkWrites_const
      · intro w hw
        exact ((mem_resetWriteList av.meshes w).mp hw).2
      · refine ⟨(t.1, t.2, 0), ?_, rfl, rfl⟩
        apply (mem_resetWriteList av.meshes (t.1, t.2, 0)).mpr
        exact ⟨⟨n, hn, by simpa using ht⟩, rfl⟩
  · intro mgr hmgr
    rw [resetAvatar_exprMgr, hmgr]
    rfl
  · intro mi idx hnone
    rw [resetAvatar_meshes, sinkVal_applyWrites]
    apply applySinkWrites_no_hit
    intro w hw hc
    rcases (mem_resetWriteList av.meshes w).mp hw with ⟨⟨n, hn, hb⟩, _⟩
    apply hnone n hn
    rw [← hc.1, ← hc.2]
    exact hb

/-- Witness for C7 on the VRC avatar with an expression manager. -/
theorem claim7_witness : avatarVrcExpr.WF ∧ ResetProp avatarVrcExpr :=
  ⟨by decide, claim7_reset_effect avatarVrcExpr (by decide)⟩

/-- Claim C9: on an avatar with no recognized vowel channels and no
expression interface, the heuristic fallback writes `max(vowelWeights) * 0.5`
to every sink of every channel whose lower-cased name contains one of the
keyword patterns. -/
theorem claim9_fallback (cfg : MorphMapperConfig) (av : Avatar) (vw : VowelWeights)
    (hwf : av.WF) (hexp : av.exprMgr = none)
    (hvrc : ∀ n ∈ vrcVowelMorphs, mapGet (buildMorphTargetMap av.meshes) n = none) :
    FallbackProp cfg av vw := by
  intro name hmatch t ht
  have hempty : vrcWriteList av.meshes vw = [] := vrcWriteList_empty av.meshes vw hvrc
  have happly : (applyVowelWeights cfg (some av) vw).1 =
      some { av with meshes := applyWrites av.meshes (altWriteList av.meshes vw)
                     updateCount := av.updateCount + 1 } := by
    unfold applyVowelWeights
    dsimp only
    have hite : (if cfg.useVRCMorphs = true then vrcWriteList av.meshes vw else []) = [] := by
      cases cfg.useVRCMorphs <;> simp [hempty]
    rw [if_neg (by simp [hite])]
    rw [hexp]
    cases cfg.useExpressions <;> rfl
  rw [happly]
  show sinkVal (applyWrites av.meshes (altWriteList av.meshes vw)) t.1 t.2 =
    some (mouthValue vw * (1 / 2))
  rw [sinkVal_applyWrites]
  rcases mem_bucket_build av.meshes name t.1 t.2 (by rw [Prod.mk.eta]; exact ht)
    with ⟨m, hm, hd⟩
  have hvalid := sinkVal_isSome_of_WF av hwf t.1 t.2 m hm ⟨name, hd⟩
  cases hs : sinkVal av.meshes t.1 t.2 with
  | none =>
    rw [hs] at hvalid
    simp at hvalid
  | some x =>
    apply applySinkWrites_const
    · exact altWriteList_val av.meshes vw
    · rcases hmatch with ⟨pat, hpat, hm2⟩
      have hget : ∃ ts, mapGet (buildMorphTargetMap av.meshes) name = some ts ∧ t ∈ ts := by
        unfold bucket at ht
        cases hg : mapGet (buildMorphTargetMap av.meshes) name with
        | none =>
          rw [hg] at ht
          simp at ht
        | some ts =>
          rw [hg] at ht
          exact ⟨ts, rfl, by simpa using ht⟩
      rcases hget with ⟨ts, hg, hts⟩
      exact ⟨(t.1, t.2, mouthValue vw * (1 / 2)),
        mem_altWriteList_of av.meshes vw name ts t hg hts pat hpat hm2, rfl, rfl⟩

/-- Witness for C9: end-to-end scenario B — the `mouth_open` avatar with
maximum vowel weight 0.8 ends with its sink reading exactly 0.4. -/
theorem claim9_witness :
    avatarMouth.WF ∧ avatarMouth.exprMgr = none ∧
      (∀ n ∈ vrcVowelMorphs, mapGet (buildMorphTargetMap avatarMouth.meshes) n = none) ∧
      FallbackProp mapperCfgDefault avatarMouth vwMouth ∧
      optSinkVal (applyVowelWeights mapperCfgDefault (some avatarMouth) vwMouth).1 0 0 =
        some (2 / 5) :=
  ⟨by decide, rfl, by decide,
   claim9_fallback mapperCfgDefault avatarMouth vwMouth (by decide) rfl (by decide),
   by with_unfolding_all decide⟩

end LipSync
